import Mathlib

/-!
Verification of the package-identity core (`conans/model/info.py`).

The development shallowly embeds the Python module `conans.model.info`:
`RequirementInfo`, `RequirementsInfo`, `RequirementsList` and `ConanInfo`,
together with the external collaborators the module calls into
(`PackageReference`, `Version.stable`, `Values`, `OptionsValues`, `Scopes`,
`ConfigParser` and the `sha1` content hash).  The collaborators are not part
of the analysed source, so they are modelled from the specification; each
such definition carries a doc comment saying so.

Python strings are modelled as Lean `String`, manipulated through explicit
character-list functions so that every operation is executable and provable
by ordinary list induction.  Python `dict`s keyed by `PackageReference` are
modelled as association lists with insert-or-overwrite semantics.  Fallible
constructors (reference parsing raises `ConanException` in Python) return
`Option`; the attribute errors that unpickled/parsed `ConanInfo` objects can
raise are modelled by `Option`-valued attribute slots.
-/

set_option maxRecDepth 2000

/-! ## Character-level string toolkit

Python's `str.join`, `str.split`, `str.strip`, `str.splitlines` and
`str.startswith` modelled over `String.data`. -/

/-- Whitespace recognised by the model of Python's `str.strip` (ASCII subset). -/
def isPySpace (c : Char) : Bool :=
  c = ' ' || c = '\t' || c = '\n' || c = '\r'

/-- Split a character list at every occurrence of `sep`; there is always one
part more than there are separators (Python `str.split(sep)` semantics). -/
def chSplitOn (sep : Char) : List Char → List (List Char)
  | [] => [[]]
  | c :: cs =>
    let ps := chSplitOn sep cs
    if c = sep then [] :: ps else (c :: ps.headI) :: ps.tail

theorem chSplitOn_ne_nil (sep : Char) (cs : List Char) : chSplitOn sep cs ≠ [] := by
  cases cs with
  | nil => simp [chSplitOn]
  | cons c cs =>
    simp only [chSplitOn]
    split
    · simp
    · simp

theorem chSplitOn_cons_sep (sep : Char) (cs : List Char) :
    chSplitOn sep (sep :: cs) = [] :: chSplitOn sep cs := by
  simp [chSplitOn]

theorem chSplitOn_cons_ne (sep c : Char) (cs : List Char) (h : c ≠ sep) :
    chSplitOn sep (c :: cs) =
      (c :: (chSplitOn sep cs).headI) :: (chSplitOn sep cs).tail := by
  simp [chSplitOn, h]

/-- A separator-free list splits into exactly itself. -/
theorem chSplitOn_sepFree (sep : Char) (cs : List Char) (h : sep ∉ cs) :
    chSplitOn sep cs = [cs] := by
  induction cs with
  | nil => rfl
  | cons c cs ih =>
    have hc : c ≠ sep := fun hceq => h (hceq ▸ List.mem_cons_self c cs)
    have hcs : sep ∉ cs := fun hm => h (List.mem_cons_of_mem c hm)
    rw [chSplitOn_cons_ne sep c cs hc, ih hcs]
    rfl

/-- Splitting distributes over a separator occurrence. -/
theorem chSplitOn_append (sep : Char) (xs ys : List Char) :
    chSplitOn sep (xs ++ sep :: ys) = chSplitOn sep xs ++ chSplitOn sep ys := by
  induction xs with
  | nil => simp [chSplitOn_cons_sep, chSplitOn]
  | cons c cs ih =>
    by_cases hc : c = sep
    · subst hc
      rw [List.cons_append, chSplitOn_cons_sep, chSplitOn_cons_sep, ih]
      rfl
    · rw [List.cons_append, chSplitOn_cons_ne sep c _ hc, chSplitOn_cons_ne sep c cs hc, ih]
      have h1 : (chSplitOn sep cs ++ chSplitOn sep ys).headI = (chSplitOn sep cs).headI := by
        cases h : chSplitOn sep cs with
        | nil => exact absurd h (chSplitOn_ne_nil sep cs)
        | cons p ps => simp
      have h2 : (chSplitOn sep cs ++ chSplitOn sep ys).tail =
          (chSplitOn sep cs).tail ++ chSplitOn sep ys := by
        cases h : chSplitOn sep cs with
        | nil => exact absurd h (chSplitOn_ne_nil sep cs)
        | cons p ps => simp
      rw [h1, h2]
      cases h : chSplitOn sep cs with
      | nil => exact absurd h (chSplitOn_ne_nil sep cs)
      | cons p ps => simp

/-- Python `sep.join(parts)`. -/
def pyJoin (sep : String) : List String → String
  | [] => ""
  | [s] => s
  | s :: ss => s ++ sep ++ pyJoin sep ss

theorem pyJoin_nil (sep : String) : pyJoin sep [] = "" := rfl

theorem pyJoin_single (sep : String) (s : String) : pyJoin sep [s] = s := rfl

theorem pyJoin_cons₂ (sep : String) (s t : String) (ts : List String) :
    pyJoin sep (s :: t :: ts) = s ++ sep ++ pyJoin sep (t :: ts) := rfl

theorem String.mk_data (s : String) : String.mk s.data = s := rfl

theorem String.data_mk (cs : List Char) : (String.mk cs).data = cs := rfl

/-- Python `s.strip()` (whitespace from both ends). -/
def pyStrip (s : String) : String :=
  String.mk (((s.data.dropWhile isPySpace).reverse.dropWhile isPySpace).reverse)

/-- Python `s.splitlines()` for newline-terminated text: empty text has no
lines, a trailing newline does not open a final empty line, and otherwise the
text splits at every newline.  (Only the `\n` terminator is modelled; that is
the only one the analysed module produces.) -/
def pySplitlines (s : String) : List String :=
  if s.data = [] then []
  else
    (chSplitOn '\n' (if s.data.getLast? = some '\n' then s.data.dropLast else s.data)).map
      String.mk

/-- Python `s.startswith(pre)`. -/
def pyStartsWith (s pre : String) : Bool := pre.data.isPrefixOf s.data

/-- Python `str(x)` on an optional string: `None` prints as `"None"`. -/
def pyStrOpt : Option String → String
  | none => "None"
  | some s => s

/-- Python truthiness of an optional string: `None` and `""` are falsy. -/
def truthyStr : Option String → Bool
  | none => false
  | some s => s ≠ ""

/-! ## A small theory of three-way comparisons

`sorted()` in Python orders `PackageReference` tuples lexicographically
(with `None` below every string, as in Python 2).  The comparison is built
from character-list comparison with `Ordering.then`, and the lawfulness facts
needed by the sorting lemmas are proved by the combinators below. -/

/-- Lawfulness of a three-way comparison: it detects equality, is
antisymmetric under `Ordering.swap`, and its strict part is transitive. -/
structure IsLawCmp {α : Type} (cmp : α → α → Ordering) : Prop where
  eq_iff : ∀ a b, cmp a b = .eq ↔ a = b
  swap_eq : ∀ a b, cmp a b = (cmp b a).swap
  lt_trans : ∀ a b c, cmp a b = .lt → cmp b c = .lt → cmp a c = .lt

/-- Lexicographic three-way comparison of character lists (Python `str`
comparison on code points). -/
def chCmp : List Char → List Char → Ordering
  | [], [] => .eq
  | [], _ :: _ => .lt
  | _ :: _, [] => .gt
  | a :: as, b :: bs => if a < b then .lt else if b < a then .gt else chCmp as bs

theorem chCmp_eq_iff (a : List Char) : ∀ b, chCmp a b = .eq ↔ a = b := by
  induction a with
  | nil => intro b; cases b <;> simp [chCmp]
  | cons x xs ih =>
    intro b
    cases b with
    | nil => simp [chCmp]
    | cons y ys =>
      rcases lt_trichotomy x y with h | h | h
      · simp [chCmp, h, ne_of_lt h]
      · subst h
        simp [chCmp, lt_irrefl, ih ys]
      · simp [chCmp, h, lt_asymm h, (ne_of_gt h : x ≠ y)]

theorem chCmp_swap (a : List Char) : ∀ b, chCmp a b = (chCmp b a).swap := by
  induction a with
  | nil => intro b; cases b <;> simp [chCmp, Ordering.swap]
  | cons x xs ih =>
    intro b
    cases b with
    | nil => simp [chCmp, Ordering.swap]
    | cons y ys =>
      rcases lt_trichotomy x y with h | h | h
      · simp [chCmp, h, lt_asymm h, Ordering.swap]
      · subst h
        simp [chCmp, lt_irrefl, ih ys]
      · simp [chCmp, h, lt_asymm h, Ordering.swap]

theorem chCmp_lt_trans (a : List Char) :
    ∀ b c, chCmp a b = .lt → chCmp b c = .lt → chCmp a c = .lt := by
  induction a with
  | nil =>
    intro b c hab hbc
    cases b with
    | nil => exact hbc
    | cons y ys =>
      cases c with
      | nil => simp [chCmp] at hbc
      | cons z zs => simp [chCmp]
  | cons x xs ih =>
    intro b c hab hbc
    cases b with
    | nil => simp [chCmp] at hab
    | cons y ys =>
      cases c with
      | nil => simp [chCmp] at hbc
      | cons z zs =>
        rcases lt_trichotomy x y with h | h | h
        · rcases lt_trichotomy y z with h' | h' | h'
          · simp [chCmp, lt_trans h h']
          · subst h'
            simp [chCmp, h]
          · rw [chCmp, if_neg (lt_asymm h'), if_pos h'] at hbc
            exact absurd hbc (by decide)
        · subst h
          rw [chCmp, if_neg (lt_irrefl x), if_neg (lt_irrefl x)] at hab
          rcases lt_trichotomy x z with h' | h' | h'
          · simp [chCmp, h']
          · subst h'
            rw [chCmp, if_neg (lt_irrefl x), if_neg (lt_irrefl x)] at hbc ⊢
            exact ih ys zs hab hbc
          · rw [chCmp, if_neg (lt_asymm h'), if_pos h'] at hbc
            exact absurd hbc (by decide)
        · rw [chCmp, if_neg (lt_asymm h), if_pos h] at hab
          exact absurd hab (by decide)

theorem chCmp_law : IsLawCmp chCmp :=
  ⟨chCmp_eq_iff, chCmp_swap, chCmp_lt_trans⟩

/-- Comparison of optional values, `none` first (Python 2 `None < str`). -/
def optCmp {α : Type} (cmp : α → α → Ordering) : Option α → Option α → Ordering
  | none, none => .eq
  | none, some _ => .lt
  | some _, none => .gt
  | some a, some b => cmp a b

theorem optCmp_law {α : Type} {cmp : α → α → Ordering} (h : IsLawCmp cmp) :
    IsLawCmp (optCmp cmp) := by
  refine ⟨?_, ?_, ?_⟩
  · intro a b
    cases a <;> cases b <;> simp [optCmp, h.eq_iff]
  · intro a b
    cases a with
    | none => cases b <;> rfl
    | some av =>
      cases b with
      | none => rfl
      | some bv => exact h.swap_eq av bv
  · intro a b c hab hbc
    cases a with
    | none =>
      cases c with
      | none =>
        cases b with
        | none => simp [optCmp] at hab
        | some bv => simp [optCmp] at hbc
      | some cv =>
        cases b <;> rfl
    | some av =>
      cases b with
      | none => simp [optCmp] at hab
      | some bv =>
        cases c with
        | none => simp [optCmp] at hbc
        | some cv => exact h.lt_trans av bv cv hab hbc

/-- Lexicographic combination of two comparisons through projections. -/
def lexCmp {α β γ : Type} (f : α → β) (g : α → γ)
    (c₁ : β → β → Ordering) (c₂ : γ → γ → Ordering) : α → α → Ordering :=
  fun a b => (c₁ (f a) (f b)).then (c₂ (g a) (g b))

theorem lexCmp_law {α β γ : Type} {f : α → β} {g : α → γ}
    {c₁ : β → β → Ordering} {c₂ : γ → γ → Ordering}
    (h₁ : IsLawCmp c₁) (h₂ : IsLawCmp c₂)
    (hinj : ∀ a b : α, f a = f b → g a = g b → a = b) :
    IsLawCmp (lexCmp f g c₁ c₂) := by
  refine ⟨?_, ?_, ?_⟩
  · intro a b
    simp only [lexCmp, Ordering.then_eq_eq, h₁.eq_iff, h₂.eq_iff]
    constructor
    · rintro ⟨hf, hg⟩
      exact hinj a b hf hg
    · rintro rfl
      exact ⟨rfl, rfl⟩
  · intro a b
    simp only [lexCmp, Ordering.swap_then]
    rw [h₁.swap_eq (f a), h₂.swap_eq (g a)]
  · intro a b c hab hbc
    simp only [lexCmp, Ordering.then_eq_lt] at hab hbc ⊢
    rcases hab with hab | ⟨hab, hab'⟩
    · rcases hbc with hbc | ⟨hbc, hbc'⟩
      · exact Or.inl (h₁.lt_trans _ _ _ hab hbc)
      · exact Or.inl ((h₁.eq_iff (f b) (f c)).mp hbc ▸ hab)
    · rcases hbc with hbc | ⟨hbc, hbc'⟩
      · exact Or.inl ((h₁.eq_iff (f a) (f b)).mp hab ▸ hbc)
      · have hf : f a = f c := ((h₁.eq_iff (f a) (f b)).mp hab).trans
          ((h₁.eq_iff (f b) (f c)).mp hbc)
        exact Or.inr ⟨(h₁.eq_iff (f a) (f c)).mpr hf, h₂.lt_trans _ _ _ hab' hbc'⟩

/-- The non-strict order induced by a comparison. -/
def cmpLe {α : Type} (cmp : α → α → Ordering) (a b : α) : Prop := cmp a b ≠ .gt

theorem cmpLe_total {α : Type} {cmp : α → α → Ordering} (h : IsLawCmp cmp) (a b : α) :
    cmpLe cmp a b ∨ cmpLe cmp b a := by
  by_cases hab : cmp a b = .gt
  · right
    unfold cmpLe
    rw [h.swap_eq b a, hab]
    decide
  · exact Or.inl hab

theorem cmpLe_trans {α : Type} {cmp : α → α → Ordering} (h : IsLawCmp cmp) (a b c : α)
    (hab : cmpLe cmp a b) (hbc : cmpLe cmp b c) : cmpLe cmp a c := by
  rcases hab' : cmp a b with _ | _ | _
  · rcases hbc' : cmp b c with _ | _ | _
    · simp [cmpLe, h.lt_trans a b c hab' hbc']
    · have hb : b = c := (h.eq_iff b c).mp hbc'
      subst hb
      simp [cmpLe, hab']
    · exact absurd hbc' hbc
  · have ha : a = b := (h.eq_iff a b).mp hab'
    subst ha
    exact hbc
  · exact absurd hab' hab

theorem cmpLe_antisymm {α : Type} {cmp : α → α → Ordering} (h : IsLawCmp cmp) (a b : α)
    (hab : cmpLe cmp a b) (hba : cmpLe cmp b a) : a = b := by
  rcases hab' : cmp a b with _ | _ | _
  · exfalso
    apply hba
    rw [h.swap_eq b a, hab']
    rfl
  · exact (h.eq_iff a b).mp hab'
  · exact absurd hab' hab

/-! ## PackageReference (the ComponentRef collaborator)

`conans.model.ref.PackageReference` is not part of the analysed source; it is
modelled from the specification: an immutable, totally ordered value
`name/version[@user/channel][:package_identity]` with a parse/print
round-trip.  `user`/`channel` appear together, hence one optional pair. -/

/-- Modelled from the spec: a fully qualified reference to a built package. -/
structure PackageReference where
  name : String
  version : String
  userChannel : Option (String × String)
  packageId : Option String
deriving DecidableEq

theorem strData_inj {a b : String} (h : a.data = b.data) : a = b :=
  congrArg String.mk h

/-- String comparison (Python `str` ordering on code points). -/
def strCmp (a b : String) : Ordering := chCmp a.data b.data

theorem strCmp_law : IsLawCmp strCmp := by
  refine ⟨?_, ?_, ?_⟩
  · intro a b
    rw [strCmp, chCmp_eq_iff]
    exact ⟨fun h => strData_inj h, fun h => h ▸ rfl⟩
  · intro a b
    exact chCmp_swap a.data b.data
  · intro a b c
    exact chCmp_lt_trans a.data b.data c.data

/-- Comparison of `(user, channel)` pairs. -/
def ucPairCmp : String × String → String × String → Ordering :=
  lexCmp Prod.fst Prod.snd strCmp strCmp

theorem ucPairCmp_law : IsLawCmp ucPairCmp :=
  lexCmp_law strCmp_law strCmp_law (fun a b h1 h2 => Prod.ext h1 h2)

/-- Comparison of the `(userChannel, packageId)` tail of a reference. -/
def refTailCmp : Option (String × String) × Option String →
    Option (String × String) × Option String → Ordering :=
  lexCmp Prod.fst Prod.snd (optCmp ucPairCmp) (optCmp strCmp)

theorem refTailCmp_law : IsLawCmp refTailCmp :=
  lexCmp_law (optCmp_law ucPairCmp_law) (optCmp_law strCmp_law)
    (fun a b h1 h2 => Prod.ext h1 h2)

/-- Comparison of the `(version, userChannel, packageId)` tail. -/
def refRestCmp : String × (Option (String × String) × Option String) →
    String × (Option (String × String) × Option String) → Ordering :=
  lexCmp Prod.fst Prod.snd strCmp refTailCmp

theorem refRestCmp_law : IsLawCmp refRestCmp :=
  lexCmp_law strCmp_law refTailCmp_law (fun a b h1 h2 => Prod.ext h1 h2)

/-- Modelled from the spec: the total order on references used by Python's
`sorted` — tuple comparison on `(name, version, user, channel, package_id)`
with absent components below all strings (Python 2 `None < str`). -/
def refCmp : PackageReference → PackageReference → Ordering :=
  lexCmp PackageReference.name (fun r => (r.version, r.userChannel, r.packageId))
    strCmp refRestCmp

theorem refCmp_law : IsLawCmp refCmp := by
  refine lexCmp_law strCmp_law refRestCmp_law ?_
  intro a b h1 h2
  cases a
  cases b
  simp_all

/-- The order on references: `refCmp` does not answer `gt`. -/
def refLe (a b : PackageReference) : Prop := cmpLe refCmp a b

instance : DecidableRel refLe := fun a b =>
  inferInstanceAs (Decidable (refCmp a b ≠ Ordering.gt))

instance : IsTotal PackageReference refLe :=
  ⟨fun a b => cmpLe_total refCmp_law a b⟩

instance : IsTrans PackageReference refLe :=
  ⟨fun a b c => cmpLe_trans refCmp_law a b c⟩

instance : IsAntisymm PackageReference refLe :=
  ⟨fun a b => cmpLe_antisymm refCmp_law a b⟩

/-- Python's `sorted` on a list of references. -/
def sortRefs (l : List PackageReference) : List PackageReference :=
  List.insertionSort refLe l

/-- Python `str(package_reference)`. -/
def PackageReference.str (r : PackageReference) : String :=
  r.name ++ "/" ++ r.version
    ++ (match r.userChannel with
        | none => ""
        | some uc => "@" ++ uc.1 ++ "/" ++ uc.2)
    ++ (match r.packageId with
        | none => ""
        | some p => ":" ++ p)

/-- Parse a `left<sep>right` pair with nonempty halves. -/
def parseTwo (sep : Char) (cs : List Char) : Option (String × String) :=
  match chSplitOn sep cs with
  | [n, v] => if n = [] || v = [] then none else some (String.mk n, String.mk v)
  | _ => none

/-- Parse `name/version[@user/channel]`. -/
def parseMain (main : List Char) :
    Option (String × String × Option (String × String)) :=
  match chSplitOn '@' main with
  | [nv] => (parseTwo '/' nv).map (fun p => (p.1, p.2, none))
  | [nv, uc] => do
      let p ← parseTwo '/' nv
      let q ← parseTwo '/' uc
      pure (p.1, p.2, some q)
  | _ => none

/-- Modelled from the spec: `PackageReference.loads` parses the reference
grammar `name/version[@user/channel][:package_identity]`; `none` models the
ConanException raised on malformed text. -/
def PackageReference.loads (text : String) : Option PackageReference :=
  match chSplitOn ':' text.data with
  | [main] => (parseMain main).map (fun t => ⟨t.1, t.2.1, t.2.2, none⟩)
  | [main, pid] =>
      if pid = [] then none
      else (parseMain main).map (fun t => ⟨t.1, t.2.1, t.2.2, some (String.mk pid)⟩)
  | _ => none

/-- Characters allowed in a well-formed reference field: everything except
the grammar separators, the dash, brackets and whitespace. -/
def refFieldChar (c : Char) : Bool :=
  !(c = '/' || c = '@' || c = ':' || c = '-' || c = '[' || c = ']' || isPySpace c)

/-- A well-formed reference field: nonempty, made of plain characters. -/
def refField (s : String) : Bool := s ≠ "" && s.data.all refFieldChar

/-- Well-formedness of a reference, sufficient for the print/parse
round-trip and for clean config-file lines. -/
def PackageReference.wf (r : PackageReference) : Bool :=
  refField r.name && refField r.version &&
    (match r.userChannel with
     | none => true
     | some uc => refField uc.1 && refField uc.2) &&
    (match r.packageId with
     | none => true
     | some p => refField p)

theorem refField_ne_nil {s : String} (h : refField s = true) : s.data ≠ [] := by
  intro hd
  have hs : s = "" := strData_inj hd
  rw [refField, hs] at h
  simp at h

theorem refField_not_mem {s : String} (h : refField s = true) {c : Char}
    (hc : refFieldChar c = false) : c ∉ s.data := by
  intro hm
  rcases Bool.and_eq_true_iff.mp h with ⟨-, hall⟩
  have := List.all_eq_true.mp hall c hm
  rw [hc] at this
  exact Bool.false_ne_true this

theorem emptyStr_data : ("" : String).data = [] := rfl

theorem slash_data : ("/" : String).data = ['/'] := rfl

theorem atSign_data : ("@" : String).data = ['@'] := rfl

theorem colon_data : (":" : String).data = [':'] := rfl

theorem notMem_glue {c d : Char} {xs ys : List Char} (hx : c ∉ xs) (hy : c ∉ ys)
    (hcd : c ≠ d) : c ∉ xs ++ d :: ys := by
  intro hm
  rcases List.mem_append.mp hm with h1 | h1
  · exact hx h1
  · rcases List.mem_cons.mp h1 with h2 | h2
    · exact hcd h2
    · exact hy h2

theorem parseTwo_fields {n v : String} (hn : refField n = true) (hv : refField v = true) :
    parseTwo '/' (n.data ++ '/' :: v.data) = some (n, v) := by
  have hn' : '/' ∉ n.data := refField_not_mem hn (by decide)
  have hv' : '/' ∉ v.data := refField_not_mem hv (by decide)
  rw [parseTwo, chSplitOn_append, chSplitOn_sepFree _ _ hn', chSplitOn_sepFree _ _ hv']
  simp [refField_ne_nil hn, refField_ne_nil hv, String.mk_data]

theorem parseMain_noUc {n v : String} (hn : refField n = true) (hv : refField v = true) :
    parseMain (n.data ++ '/' :: v.data) = some (n, v, none) := by
  have hat : '@' ∉ n.data ++ '/' :: v.data :=
    notMem_glue (refField_not_mem hn (by decide)) (refField_not_mem hv (by decide))
      (by decide)
  rw [parseMain, chSplitOn_sepFree _ _ hat]
  simp [parseTwo_fields hn hv]

theorem parseMain_uc {n v u ch : String} (hn : refField n = true)
    (hv : refField v = true) (hu : refField u = true) (hc : refField ch = true) :
    parseMain (n.data ++ '/' :: (v.data ++ '@' :: (u.data ++ '/' :: ch.data))) =
      some (n, v, some (u, ch)) := by
  have hassoc : n.data ++ '/' :: (v.data ++ '@' :: (u.data ++ '/' :: ch.data)) =
      (n.data ++ '/' :: v.data) ++ '@' :: (u.data ++ '/' :: ch.data) := by
    simp
  rw [hassoc]
  have h1 : '@' ∉ n.data ++ '/' :: v.data :=
    notMem_glue (refField_not_mem hn (by decide)) (refField_not_mem hv (by decide))
      (by decide)
  have h2 : '@' ∉ u.data ++ '/' :: ch.data :=
    notMem_glue (refField_not_mem hu (by decide)) (refField_not_mem hc (by decide))
      (by decide)
  rw [parseMain, chSplitOn_append, chSplitOn_sepFree _ _ h1, chSplitOn_sepFree _ _ h2]
  simp [parseTwo_fields hn hv, parseTwo_fields hu hc]

/-- The print/parse round-trip on well-formed references (the spec requires
`parse(to_string(x)) == x`). -/
theorem PackageReference.loads_str {r : PackageReference} (h : r.wf = true) :
    PackageReference.loads r.str = some r := by
  obtain ⟨n, v, uc, pid⟩ := r
  rcases uc with - | ⟨u, ch⟩ <;> rcases pid with - | p <;>
    simp only [PackageReference.wf, Bool.and_eq_true] at h
  · obtain ⟨⟨⟨hn, hv⟩, -⟩, -⟩ := h
    have hdata : (PackageReference.str ⟨n, v, none, none⟩).data =
        n.data ++ '/' :: v.data := by
      simp [PackageReference.str, String.data_append, emptyStr_data, slash_data]
    have hcolon : ':' ∉ n.data ++ '/' :: v.data :=
      notMem_glue (refField_not_mem hn (by decide)) (refField_not_mem hv (by decide))
        (by decide)
    rw [PackageReference.loads, hdata, chSplitOn_sepFree _ _ hcolon]
    simp [parseMain_noUc hn hv]
  · obtain ⟨⟨⟨hn, hv⟩, -⟩, hp⟩ := h
    have hdata : (PackageReference.str ⟨n, v, none, some p⟩).data =
        (n.data ++ '/' :: v.data) ++ ':' :: p.data := by
      simp [PackageReference.str, String.data_append, emptyStr_data, slash_data,
        colon_data]
    have hcolon : ':' ∉ n.data ++ '/' :: v.data :=
      notMem_glue (refField_not_mem hn (by decide)) (refField_not_mem hv (by decide))
        (by decide)
    have hp' : ':' ∉ p.data := refField_not_mem hp (by decide)
    rw [PackageReference.loads, hdata, chSplitOn_append, chSplitOn_sepFree _ _ hcolon,
      chSplitOn_sepFree _ _ hp']
    simp [refField_ne_nil hp, parseMain_noUc hn hv, String.mk_data]
  · obtain ⟨⟨⟨hn, hv⟩, hu, hc⟩, -⟩ := h
    have hdata : (PackageReference.str ⟨n, v, some (u, ch), none⟩).data =
        (n.data ++ '/' :: v.data) ++ '@' :: (u.data ++ '/' :: ch.data) := by
      simp [PackageReference.str, String.data_append, emptyStr_data, slash_data,
        atSign_data]
    have hcolon : ':' ∉ (n.data ++ '/' :: v.data) ++ '@' :: (u.data ++ '/' :: ch.data) :=
      notMem_glue
        (notMem_glue (refField_not_mem hn (by decide)) (refField_not_mem hv (by decide))
          (by decide))
        (notMem_glue (refField_not_mem hu (by decide)) (refField_not_mem hc (by decide))
          (by decide))
        (by decide)
    rw [PackageReference.loads, hdata, chSplitOn_sepFree _ _ hcolon]
    simp [parseMain_uc hn hv hu hc]
  · obtain ⟨⟨⟨hn, hv⟩, hu, hc⟩, hp⟩ := h
    have hdata : (PackageReference.str ⟨n, v, some (u, ch), some p⟩).data =
        ((n.data ++ '/' :: v.data) ++ '@' :: (u.data ++ '/' :: ch.data)) ++
          ':' :: p.data := by
      simp [PackageReference.str, String.data_append, emptyStr_data, slash_data,
        atSign_data, colon_data]
    have hcolon : ':' ∉ (n.data ++ '/' :: v.data) ++ '@' :: (u.data ++ '/' :: ch.data) :=
      notMem_glue
        (notMem_glue (refField_not_mem hn (by decide)) (refField_not_mem hv (by decide))
          (by decide))
        (notMem_glue (refField_not_mem hu (by decide)) (refField_not_mem hc (by decide))
          (by decide))
        (by decide)
    have hp' : ':' ∉ p.data := refField_not_mem hp (by decide)
    rw [PackageReference.loads, hdata, chSplitOn_append, chSplitOn_sepFree _ _ hcolon,
      chSplitOn_sepFree _ _ hp']
    simp [refField_ne_nil hp, parseMain_uc hn hv hu hc, String.mk_data]

/-- Modelled from the spec: `stabilize(full_version)` — the normalised version
used for hashing strips pre-release markers, i.e. everything from the first
dash on. -/
def Version.stable (v : String) : String := String.mk (chSplitOn '-' v.data).headI

theorem Version.stable_of_wf {v : String} (h : refField v = true) :
    Version.stable v = v := by
  rw [Version.stable, chSplitOn_sepFree '-' v.data (refField_not_mem h (by decide))]
  rfl

/-- Modelled from the spec: the opaque content-hash primitive
(`conans.util.sha.sha1`).  The spec treats it as an injective fingerprint of
the hashed text, so it is modelled as the tagged identity. -/
structure Hash where
  digest : String
deriving DecidableEq

/-- Modelled from the spec: hash of a text (the source hashes the UTF-8 bytes). -/
def sha1 (s : String) : Hash := ⟨s⟩

theorem sha1_inj {a b : String} (h : sha1 a = sha1 b) : a = b :=
  congrArg Hash.digest h

/-! ## RequirementInfo (conans/model/info.py, lines 11–46) -/

/-- Errors raised by the module: `ConanException` for malformed input or
failed lookup, and the Python `AttributeError` for reads of attributes that a
construction path never assigned. -/
inductive ConanError where
  | conanException (msg : String)
  | attributeError (attr : String)
deriving DecidableEq

/-- The per-requirement record.  `full_*` capture the parsed reference
verbatim; the unprefixed fields are the identity ("sha") fields. -/
structure RequirementInfo where
  package : PackageReference
  full_name : String
  full_version : String
  full_user : Option String
  full_channel : Option String
  full_package_id : Option String
  name : Option String
  version : Option String
  user : Option String
  channel : Option String
  package_id : Option String
deriving DecidableEq

/-- Field population of `RequirementInfo.__init__` after the reference has
been parsed: an indirect requirement gets `name = version = None`, a direct
one keeps its name and its stabilised version; `user`, `channel` and
`package_id` are always `None`. -/
def RequirementInfo.ofRef (ref : PackageReference) (indirect : Bool) : RequirementInfo :=
  { package := ref
    full_name := ref.name
    full_version := ref.version
    full_user := ref.userChannel.map Prod.fst
    full_channel := ref.userChannel.map Prod.snd
    full_package_id := ref.packageId
    name := if indirect then none else some ref.name
    version := if indirect then none else some (Version.stable ref.version)
    user := none
    channel := none
    package_id := none }

/-- RequirementInfo.__init__ : parse `value_str`, then populate the fields;
`none` models the ConanException raised on malformed reference text. -/
def RequirementInfo.init (value_str : String) (indirect : Bool) :
    Option RequirementInfo :=
  (PackageReference.loads value_str).map (fun ref => RequirementInfo.ofRef ref indirect)

/-- RequirementInfo.dumps : the truthy identity fields joined by `/`
(`None` and empty fields are omitted entirely). -/
def RequirementInfo.dumps (info : RequirementInfo) : String :=
  pyJoin "/"
    (([info.name, info.version, info.user, info.channel, info.package_id].filter
        truthyStr).map pyStrOpt)

/-- RequirementInfo.sha : `str(n)` of every identity field joined by `/`
(`None` is printed as the string `"None"`). -/
def RequirementInfo.sha (info : RequirementInfo) : String :=
  pyJoin "/"
    ([info.name, info.version, info.user, info.channel, info.package_id].map pyStrOpt)

/-- RequirementInfo.serialize : `str(self.package)`. -/
def RequirementInfo.serialize (info : RequirementInfo) : String := info.package.str

/-- RequirementInfo.deserialize : re-parse the serialized reference (direct). -/
def RequirementInfo.deserialize (data : String) : Option RequirementInfo :=
  RequirementInfo.init data false

/-! ## RequirementsInfo (conans/model/info.py, lines 49–114)

`_data` is a Python dict keyed by `PackageReference`; it is modelled as an
association list with insert-or-overwrite semantics, which keeps the key
list free of duplicates. -/

/-- Python `dict` assignment `m[k] = v`: overwrite the entry if the key is
present, append it otherwise. -/
def dictInsert (m : List (PackageReference × RequirementInfo))
    (k : PackageReference) (v : RequirementInfo) :
    List (PackageReference × RequirementInfo) :=
  if m.any (fun p => p.1 = k) then m.map (fun p => if p.1 = k then (k, v) else p)
  else m ++ [(k, v)]

/-- The requirement set: `_non_devs_requirements` (the relevance filter,
possibly absent) and the keyed records `_data`. -/
structure RequirementsInfo where
  non_devs_requirements : Option (List String)
  data : List (PackageReference × RequirementInfo)
deriving DecidableEq

/-- RequirementsInfo.__init__ : `_data = {r: RequirementInfo(str(r)) for r in
requires}` (each direct requirement is re-printed and re-parsed). -/
def RequirementsInfo.init (requires : List PackageReference)
    (non_devs_requirements : Option (List String)) : Option RequirementsInfo := do
  let data ← requires.foldlM
    (fun m r => (RequirementInfo.init r.str false).map (fun info => dictInsert m r info))
    []
  pure ⟨non_devs_requirements, data⟩

/-- RequirementsInfo.add : insert one indirect record per reference,
overwriting any existing entry for the same key. -/
def RequirementsInfo.add (ri : RequirementsInfo)
    (indirect_reqs : List PackageReference) : Option RequirementsInfo := do
  let data ← indirect_reqs.foldlM
    (fun m r => (RequirementInfo.init r.str true).map (fun info => dictInsert m r info))
    ri.data
  pure ⟨ri.non_devs_requirements, data⟩

/-- RequirementsInfo.refs : the current keys. -/
def RequirementsInfo.refs (ri : RequirementsInfo) : List PackageReference :=
  ri.data.map Prod.fst

/-- RequirementsInfo.__getitem__ : approximate search by key text; exactly
one match returns its record, anything else raises ConanException. -/
def RequirementsInfo.getitem (ri : RequirementsInfo) (item : String) :
    Except ConanError RequirementInfo :=
  match ri.data.filter (fun p => pyStartsWith p.1.str item) with
  | [p] => .ok p.2
  | _ => .error (.conanException ("No match for " ++ item))

/-- The `result` list built by the `sha` property: keys in ascending order;
with the filter absent every record's `sha` line is kept, otherwise only the
lines of records whose key name is in the filter. -/
def RequirementsInfo.shaLines (ri : RequirementsInfo) : List String :=
  match ri.non_devs_requirements with
  | none =>
      (sortRefs (ri.data.map Prod.fst)).filterMap
        (fun key => (ri.data.lookup key).map RequirementInfo.sha)
  | some nd =>
      (sortRefs (ri.data.map Prod.fst)).filterMap
        (fun key =>
          if nd.contains key.name then (ri.data.lookup key).map RequirementInfo.sha
          else none)

/-- RequirementsInfo.sha : hash of the newline-joined relevant sha lines. -/
def RequirementsInfo.sha (ri : RequirementsInfo) : Hash :=
  sha1 (pyJoin "\n" ri.shaLines)

/-- RequirementsInfo.dumps : keys in ascending order; non-empty record dumps
only, tagged with a literal " DEV" when a filter is present and the key's
name is not in it. -/
def RequirementsInfo.dumps (ri : RequirementsInfo) : String :=
  pyJoin "\n"
    ((sortRefs (ri.data.map Prod.fst)).filterMap
      (fun ref =>
        (ri.data.lookup ref).bind
          (fun info =>
            let dumped := info.dumps
            if dumped = "" then none
            else
              let dev := match ri.non_devs_requirements with
                | none => false
                | some nd => !nd.contains ref.name
              some (if dev then dumped ++ " DEV" else dumped))))

/-- RequirementsInfo.serialize : map each key's text to its record's
serialized reference, in dict (insertion) order. -/
def RequirementsInfo.serialize (ri : RequirementsInfo) : List (String × String) :=
  ri.data.map (fun p => (p.1.str, p.2.serialize))

/-- RequirementsInfo.deserialize : rebuild from the structured form with no
relevance filter; every record is re-parsed as a direct requirement. -/
def RequirementsInfo.deserialize (data : List (String × String)) :
    Option RequirementsInfo := do
  let d ← data.foldlM
    (fun m p => do
      let ref ← PackageReference.loads p.1
      let info ← RequirementInfo.deserialize p.2
      pure (dictInsert m ref info))
    []
  pure ⟨none, d⟩

/-! ## RequirementsList (conans/model/info.py, lines 117–130) -/

/-- RequirementsList.serialize : sorted full reference texts. -/
def RequirementsList.serialize (l : List PackageReference) : List String :=
  (sortRefs l).map PackageReference.str

/-- RequirementsList.dumps : newline-joined serialized form. -/
def RequirementsList.dumps (l : List PackageReference) : String :=
  pyJoin "\n" (RequirementsList.serialize l)

/-- RequirementsList.deserialize : parse one reference per line. -/
def RequirementsList.deserialize (data : List String) :
    Option (List PackageReference) :=
  data.mapM PackageReference.loads

/-- RequirementsList.loads : split the text into lines and parse them. -/
def RequirementsList.loads (text : String) : Option (List PackageReference) :=
  RequirementsList.deserialize (pySplitlines text)

/-! ## Settings, options and scope collaborators

`conans.model.values.Values`, `conans.model.options.OptionsValues` and
`conans.model.scope.Scopes` are external to the analysed source and are
modelled from the specification as opaque snapshots represented by their
canonical dump lines. -/

/-- Modelled from the spec: the settings snapshot collaborator
(`conans.model.values.Values`), represented by its canonical dump lines. -/
structure Values where
  lines : List String
deriving DecidableEq

/-- Modelled from the spec: `Values.copy`. -/
def Values.copy (v : Values) : Values := v

/-- Modelled from the spec: the canonical settings dump. -/
def Values.dumps (v : Values) : String := pyJoin "\n" v.lines

/-- Modelled from the spec: parse a settings dump. -/
def Values.loads (text : String) : Values := ⟨pySplitlines text⟩

/-- Modelled from the spec: the settings identity hash. -/
def Values.sha (v : Values) : Hash := sha1 v.dumps

/-- Modelled from the spec: the structured settings form. -/
def Values.serialize (v : Values) : List String := v.lines

/-- Modelled from the spec: rebuild settings from the structured form. -/
def Values.deserialize (data : List String) : Values := ⟨data⟩

/-- Modelled from the spec: the options snapshot collaborator
(`conans.model.options.OptionsValues`): locally declared `name=value` lines
plus transitively inherited ("indirect") ones. -/
structure OptionsValues where
  entries : List String
  indirectEntries : List String
deriving DecidableEq

/-- Modelled from the spec: `OptionsValues.copy`. -/
def OptionsValues.copy (o : OptionsValues) : OptionsValues := o

/-- Modelled from the spec: clear the transitively inherited option values. -/
def OptionsValues.clear_indirect (o : OptionsValues) : OptionsValues :=
  ⟨o.entries, []⟩

/-- All option lines, local ones first. -/
def OptionsValues.allLines (o : OptionsValues) : List String :=
  o.entries ++ o.indirectEntries

/-- Modelled from the spec: the canonical options dump. -/
def OptionsValues.dumps (o : OptionsValues) : String := pyJoin "\n" o.allLines

/-- Modelled from the spec: parse an options dump (the local/inherited split
is not recoverable from text, all lines load as local). -/
def OptionsValues.loads (text : String) : OptionsValues := ⟨pySplitlines text, []⟩

/-- The package scope of an option line: the text before a `:`, when present. -/
def optionScope (line : String) : Option String :=
  match chSplitOn ':' line.data with
  | [_] => none
  | s :: _ => some (String.mk s)
  | [] => none

/-- Modelled from the spec: the options identity hash given the relevance
filter — package-scoped option lines of packages outside the filter are
excluded from the hashed text. -/
def OptionsValues.sha (o : OptionsValues) (non_devs : Option (List String)) : Hash :=
  sha1 (pyJoin "\n"
    (o.allLines.filter
      (fun l =>
        match non_devs with
        | none => true
        | some nd =>
          match optionScope l with
          | none => true
          | some s => nd.contains s)))

/-- Modelled from the spec: the structured options form. -/
def OptionsValues.serialize (o : OptionsValues) : List String := o.allLines

/-- Modelled from the spec: rebuild options from the structured form. -/
def OptionsValues.deserialize (data : List String) : OptionsValues := ⟨data, []⟩

/-- Modelled from the spec: `Scopes.loads` — free-form scope data, absent
when the text is empty. -/
def Scopes.loads (text : String) : Option String :=
  if text = "" then none else some text

/-- Modelled from the spec: the scope dump. -/
def Scopes.dumps (s : String) : String := s

/-! ## ConfigParser (conans/util/config_parser.py)

Modelled from the spec: the ini-like section parser behind `ConanInfo.loads`.
Lines are stripped; blank lines are skipped; a stripped line `[name]` opens
the section `name` (which must be an allowed field); any other line belongs
to the most recently opened section.  Content before the first section
header, an unterminated header and an unknown section name are errors. -/

/-- Append a body line to the most recently opened section; fails when no
section has been opened yet. -/
def appendToLast (secs : List (String × List String)) (line : String) :
    Option (List (String × List String)) :=
  match secs with
  | [] => none
  | [(n, body)] => some [(n, body ++ [line])]
  | sec :: rest => (appendToLast rest line).map (fun r => sec :: r)

/-- Recognise a stripped `[name]` header line. -/
def headerOf (t : String) : Option String :=
  match t.data with
  | '[' :: rest => if rest.getLast? = some ']' then some (String.mk rest.dropLast) else none
  | _ => none

/-- Modelled from the spec: one pass of the config parser over the stripped
line stream. -/
def cpFold (allowed : List String) :
    List String → List (String × List String) → Option (List (String × List String))
  | [], acc => some acc
  | line :: rest, acc =>
    let t := pyStrip line
    if t = "" then cpFold allowed rest acc
    else if t.data.head? = some '[' then
      (headerOf t).bind (fun name =>
        if allowed.contains name then cpFold allowed rest (acc ++ [(name, [])])
        else none)
    else
      (appendToLast acc t).bind (cpFold allowed rest)

/-- Modelled from the spec: parse a config text into its sections. -/
def ConfigParser.run (text : String) (allowed : List String) :
    Option (List (String × List String)) :=
  cpFold allowed (pySplitlines text) []

/-- The text of one parsed section (the parser joins the collected lines). -/
def sectionText (secs : List (String × List String)) (name : String) :
    Option String :=
  (secs.lookup name).map (pyJoin "\n")

/-! ## ConanInfo (conans/model/info.py, lines 133–240) -/

/-- The aggregated build identity.  `scope` and `non_devs_requirements` are
wrapped in an outer `Option`: `none` models an attribute the construction
path never assigned (reading it raises AttributeError in Python). -/
structure ConanInfo where
  settings : Values
  full_settings : Values
  options : OptionsValues
  full_options : OptionsValues
  requires : RequirementsInfo
  full_requires : List PackageReference
  scope : Option (Option String)
  non_devs_requirements : Option (Option (List String))
  package_id_cached : Option Hash
deriving DecidableEq

/-- ConanInfo.create : snapshot settings and options (the pruned options copy
drops the indirect values), build the requirement set from the direct
requirements plus the indirect ones, and extend the full requirement list. -/
def ConanInfo.create (settings : Values) (options : OptionsValues)
    (requires indirect_requires : List PackageReference)
    (non_devs_requirements : Option (List String)) : Option ConanInfo := do
  let reqinfo ← RequirementsInfo.init requires non_devs_requirements
  let reqinfo ← reqinfo.add indirect_requires
  pure
    { full_settings := settings
      settings := settings.copy
      full_options := options
      options := options.copy.clear_indirect
      full_requires := requires ++ indirect_requires
      requires := reqinfo
      scope := some none
      non_devs_requirements := some non_devs_requirements
      package_id_cached := none }

/-- The section names `ConanInfo.loads` passes to the config parser. -/
def allowedFields : List String :=
  ["settings", "full_settings", "options", "full_options", "requires",
   "full_requires", "scope"]

/-- ConanInfo.loads : parse the canonical text.  `requires` is rebuilt from
`full_requires` with no relevance filter (the parsed `[requires]` section is
not used); `_non_devs_requirements` is never assigned. -/
def ConanInfo.loads (text : String) : Option ConanInfo := do
  let parser ← ConfigParser.run text allowedFields
  let settingsTxt ← sectionText parser "settings"
  let fullSettingsTxt ← sectionText parser "full_settings"
  let optionsTxt ← sectionText parser "options"
  let fullOptionsTxt ← sectionText parser "full_options"
  let fullRequiresTxt ← sectionText parser "full_requires"
  let scopeTxt ← sectionText parser "scope"
  let full_requires ← RequirementsList.loads fullRequiresTxt
  let requires ← RequirementsInfo.init full_requires none
  pure
    { settings := Values.loads settingsTxt
      full_settings := Values.loads fullSettingsTxt
      options := OptionsValues.loads optionsTxt
      full_options := OptionsValues.loads fullOptionsTxt
      full_requires := full_requires
      requires := requires
      scope := some (Scopes.loads scopeTxt)
      non_devs_requirements := none
      package_id_cached := none }

/-- The `indent` helper of ConanInfo.dumps. -/
def indentText (text : String) : String :=
  pyJoin "\n" ((pySplitlines text).map (fun line => "    " ++ line))

/-- The `result` list of ConanInfo.dumps; `none` when the `scope` attribute
was never assigned (reading it would raise AttributeError). -/
def ConanInfo.dumpPieces (c : ConanInfo) : Option (List String) :=
  match c.scope with
  | none => none
  | some scope =>
      some
        (["[settings]", indentText c.settings.dumps,
          "\n[requires]", indentText c.requires.dumps,
          "\n[options]", indentText c.options.dumps,
          "\n[full_settings]", indentText c.full_settings.dumps,
          "\n[full_requires]", indentText (RequirementsList.dumps c.full_requires),
          "\n[full_options]", indentText c.full_options.dumps,
          "\n[scope]"]
         ++ (match scope with
             | some s => if s = "" then [] else [indentText (Scopes.dumps s)]
             | none => []))

/-- ConanInfo.dumps : the canonical text. -/
def ConanInfo.dumps (c : ConanInfo) : Option String :=
  c.dumpPieces.map (pyJoin "\n")

/-- ConanInfo.package_id : return the cached hash when present; otherwise
hash the newline-joined settings, options and requirements sub-hashes (the
options sub-hash takes the relevance filter) and cache the result.  Reading
`_non_devs_requirements` fails on objects built by `loads`/`deserialize`. -/
def ConanInfo.package_id (c : ConanInfo) : Except ConanError (Hash × ConanInfo) :=
  match c.package_id_cached with
  | some computed_id => .ok (computed_id, c)
  | none =>
    match c.non_devs_requirements with
    | none => .error (.attributeError "_non_devs_requirements")
    | some nd =>
      let result := [c.settings.sha.digest, (c.options.sha nd).digest,
        c.requires.sha.digest]
      let h := sha1 (pyJoin "\n" result)
      .ok (h, { c with package_id_cached := some h })

/-- The structured (machine) form of a ConanInfo: six fields, no scope. -/
structure ConanInfoData where
  settings : List String
  full_settings : List String
  options : List String
  full_options : List String
  requires : List (String × String)
  full_requires : List String

/-- ConanInfo.serialize : the six structured fields (`scope` is omitted). -/
def ConanInfo.serialize (c : ConanInfo) : ConanInfoData :=
  { settings := c.settings.serialize
    full_settings := c.full_settings.serialize
    options := c.options.serialize
    full_options := c.full_options.serialize
    requires := c.requires.serialize
    full_requires := RequirementsList.serialize c.full_requires }

/-- ConanInfo.deserialize : rebuild the six fields; neither `scope` nor
`_non_devs_requirements` is ever assigned. -/
def ConanInfo.deserialize (data : ConanInfoData) : Option ConanInfo := do
  let requires ← RequirementsInfo.deserialize data.requires
  let full_requires ← RequirementsList.deserialize data.full_requires
  pure
    { settings := Values.deserialize data.settings
      full_settings := Values.deserialize data.full_settings
      options := OptionsValues.deserialize data.options
      full_options := OptionsValues.deserialize data.full_options
      requires := requires
      full_requires := full_requires
      scope := none
      non_devs_requirements := none
      package_id_cached := none }

/-! ## Dictionary and sorting lemmas -/

theorem lookup_cons_eq {α β : Type} [BEq α] [LawfulBEq α] [DecidableEq α]
    (k : α) (v : β) (m : List (α × β)) (j : α) :
    ((k, v) :: m).lookup j = if k = j then some v else m.lookup j := by
  by_cases h : k = j
  · subst h
    simp [List.lookup]
  · have hb : (j == k) = false := by
      rw [beq_eq_false_iff_ne]
      exact fun hc => h hc.symm
    simp [List.lookup, hb, h]

theorem lookup_none_of_not_mem_keys {α β : Type} [BEq α] [LawfulBEq α] [DecidableEq α]
    {m : List (α × β)} {j : α} (h : j ∉ m.map Prod.fst) : m.lookup j = none := by
  induction m with
  | nil => rfl
  | cons a m ih =>
    rcases a with ⟨k, v⟩
    rw [lookup_cons_eq]
    simp only [List.map_cons, List.mem_cons] at h
    push_neg at h
    rw [if_neg (fun hk => h.1 hk.symm)]
    exact ih h.2

theorem mem_iff_lookup {α β : Type} [BEq α] [LawfulBEq α] [DecidableEq α]
    {m : List (α × β)} (h : (m.map Prod.fst).Nodup) (p1 : α) (p2 : β) :
    (p1, p2) ∈ m ↔ m.lookup p1 = some p2 := by
  induction m with
  | nil => simp
  | cons a m ih =>
    rcases a with ⟨k, v⟩
    simp only [List.map_cons, List.nodup_cons] at h
    rw [List.mem_cons, lookup_cons_eq]
    by_cases hk : k = p1
    · subst hk
      rw [if_pos rfl]
      constructor
      · rintro (hp | hp)
        · injection hp with h1 h2
          rw [h2]
        · exact absurd (List.mem_map.mpr ⟨(k, p2), hp, rfl⟩) h.1
      · intro hv
        injection hv with hv
        left
        rw [hv]
    · rw [if_neg hk, ih h.2]
      constructor
      · rintro (hp | hp)
        · injection hp with h1 h2
          exact absurd h1.symm hk
        · exact hp
      · intro hp
        exact Or.inr hp

theorem dictInsert_map_fst_of_mem (m : List (PackageReference × RequirementInfo))
    (k : PackageReference) (v : RequirementInfo)
    (h : m.any (fun p => p.1 = k) = true) :
    (dictInsert m k v).map Prod.fst = m.map Prod.fst := by
  rw [dictInsert, if_pos h, List.map_map]
  refine List.map_congr_left ?_
  intro p _
  by_cases hp : p.1 = k
  · simp [hp]
  · simp [hp]

theorem dictInsert_map_fst_of_not_mem (m : List (PackageReference × RequirementInfo))
    (k : PackageReference) (v : RequirementInfo)
    (h : ¬ m.any (fun p => p.1 = k) = true) :
    (dictInsert m k v).map Prod.fst = m.map Prod.fst ++ [k] := by
  rw [dictInsert, if_neg h]
  simp

theorem any_key_iff (m : List (PackageReference × RequirementInfo))
    (k : PackageReference) :
    m.any (fun p => p.1 = k) = true ↔ k ∈ m.map Prod.fst := by
  rw [List.any_eq_true]
  constructor
  · rintro ⟨p, hp, he⟩
    rw [decide_eq_true_eq] at he
    exact List.mem_map.mpr ⟨p, hp, he⟩
  · intro hk
    rcases List.mem_map.mp hk with ⟨p, hp, he⟩
    exact ⟨p, hp, by rw [decide_eq_true_eq]; exact he⟩

theorem dictInsert_keys_mem (m : List (PackageReference × RequirementInfo))
    (k : PackageReference) (v : RequirementInfo) (j : PackageReference) :
    j ∈ (dictInsert m k v).map Prod.fst ↔ j ∈ m.map Prod.fst ∨ j = k := by
  by_cases h : m.any (fun p => p.1 = k) = true
  · rw [dictInsert_map_fst_of_mem m k v h]
    constructor
    · exact Or.inl
    · rintro (hj | rfl)
      · exact hj
      · exact (any_key_iff m j).mp h
  · rw [dictInsert_map_fst_of_not_mem m k v h]
    simp

theorem dictInsert_keys_nodup (m : List (PackageReference × RequirementInfo))
    (k : PackageReference) (v : RequirementInfo)
    (h : (m.map Prod.fst).Nodup) : ((dictInsert m k v).map Prod.fst).Nodup := by
  by_cases hany : m.any (fun p => p.1 = k) = true
  · rwa [dictInsert_map_fst_of_mem m k v hany]
  · rw [dictInsert_map_fst_of_not_mem m k v hany]
    rw [List.nodup_append]
    refine ⟨h, List.nodup_singleton k, ?_⟩
    intro a ha hb
    simp only [List.mem_singleton] at hb
    subst hb
    exact hany ((any_key_iff m a).mpr ha)

theorem lookup_isSome_of_mem_keys {α β : Type} [BEq α] [LawfulBEq α] [DecidableEq α]
    {m : List (α × β)} {j : α} (h : j ∈ m.map Prod.fst) :
    ∃ b, m.lookup j = some b := by
  induction m with
  | nil => simp at h
  | cons a m ih =>
    rcases a with ⟨k0, v0⟩
    rw [lookup_cons_eq]
    by_cases hj : k0 = j
    · rw [if_pos hj]
      exact ⟨v0, rfl⟩
    · rw [if_neg hj]
      apply ih
      simp only [List.map_cons, List.mem_cons] at h
      rcases h with h | h
      · exact absurd h (fun hh => hj hh.symm)
      · exact h

theorem lookup_map_overwrite (m : List (PackageReference × RequirementInfo))
    (k : PackageReference) (v : RequirementInfo) (j : PackageReference) :
    (m.map (fun p => if p.1 = k then (k, v) else p)).lookup j =
      if j = k then (m.lookup k).map (fun _ => v) else m.lookup j := by
  induction m with
  | nil =>
    by_cases hj : j = k <;> simp [hj, List.lookup]
  | cons a m ih =>
    rcases a with ⟨k0, v0⟩
    by_cases hk0 : k0 = k
    · subst hk0
      have hstep : (((k0, v0) :: m).map (fun p => if p.1 = k0 then (k0, v) else p)) =
          (k0, v) :: m.map (fun p => if p.1 = k0 then (k0, v) else p) := by
        simp
      rw [hstep]
      by_cases hj : j = k0
      · subst hj
        simp [lookup_cons_eq]
      · have hj' : ¬ k0 = j := fun hc => hj hc.symm
        simp [lookup_cons_eq, hj, hj', ih]
    · have hstep : (((k0, v0) :: m).map (fun p => if p.1 = k then (k, v) else p)) =
          (k0, v0) :: m.map (fun p => if p.1 = k then (k, v) else p) := by
        simp [hk0]
      rw [hstep]
      by_cases hj : k0 = j
      · subst hj
        simp [lookup_cons_eq, hk0]
      · simp [lookup_cons_eq, hk0, hj, ih]

theorem lookup_append_single (m : List (PackageReference × RequirementInfo))
    (k : PackageReference) (v : RequirementInfo) (j : PackageReference)
    (hnm : k ∉ m.map Prod.fst) :
    (m ++ [(k, v)]).lookup j = if j = k then some v else m.lookup j := by
  induction m with
  | nil =>
    rw [List.nil_append, lookup_cons_eq]
    by_cases hj : j = k
    · rw [if_pos hj.symm, if_pos hj]
    · rw [if_neg (fun hc => hj hc.symm), if_neg hj]
  | cons a m ih =>
    rcases a with ⟨k0, v0⟩
    simp only [List.map_cons, List.mem_cons] at hnm
    push_neg at hnm
    rw [List.cons_append, lookup_cons_eq, lookup_cons_eq]
    by_cases hj : k0 = j
    · rw [if_pos hj, if_pos hj, if_neg]
      intro hc
      exact hnm.1 (hc ▸ hj).symm
    · rw [if_neg hj, if_neg hj, ih hnm.2]

theorem dictInsert_lookup (m : List (PackageReference × RequirementInfo))
    (k : PackageReference) (v : RequirementInfo) (j : PackageReference) :
    (dictInsert m k v).lookup j = if j = k then some v else m.lookup j := by
  by_cases hany : m.any (fun p => p.1 = k) = true
  · rw [dictInsert, if_pos hany, lookup_map_overwrite]
    by_cases hj : j = k
    · subst hj
      rw [if_pos rfl, if_pos rfl]
      obtain ⟨b, hb⟩ := lookup_isSome_of_mem_keys ((any_key_iff m j).mp hany)
      rw [hb]
      rfl
    · rw [if_neg hj, if_neg hj]
  · rw [dictInsert, if_neg hany]
    refine lookup_append_single m k v j ?_
    intro hc
    exact hany ((any_key_iff m k).mpr hc)

/-- The pure fold underlying `RequirementsInfo.init`/`add` on well-formed
references: insert `ofRef r indirect` for every reference in order. -/
def insFold (reqs : List PackageReference) (indirect : Bool)
    (m : List (PackageReference × RequirementInfo)) :
    List (PackageReference × RequirementInfo) :=
  reqs.foldl (fun acc r => dictInsert acc r (RequirementInfo.ofRef r indirect)) m

theorem insFold_nil (ind : Bool) (m : List (PackageReference × RequirementInfo)) :
    insFold [] ind m = m := rfl

theorem insFold_cons (r : PackageReference) (reqs : List PackageReference) (ind : Bool)
    (m : List (PackageReference × RequirementInfo)) :
    insFold (r :: reqs) ind m =
      insFold reqs ind (dictInsert m r (RequirementInfo.ofRef r ind)) := rfl

theorem foldlM_insert_eq (reqs : List PackageReference) (ind : Bool)
    (h : ∀ r ∈ reqs, r.wf = true) :
    ∀ m, (reqs.foldlM
      (fun acc r =>
        (RequirementInfo.init r.str ind).map (fun info => dictInsert acc r info)) m)
      = some (insFold reqs ind m) := by
  induction reqs with
  | nil =>
    intro m
    rfl
  | cons r reqs ih =>
    intro m
    have hr : RequirementInfo.init r.str ind = some (RequirementInfo.ofRef r ind) := by
      rw [RequirementInfo.init, PackageReference.loads_str (h r (List.mem_cons_self r reqs))]
      rfl
    rw [List.foldlM_cons, hr, insFold_cons]
    have := ih (fun x hx => h x (List.mem_cons_of_mem r hx))
      (dictInsert m r (RequirementInfo.ofRef r ind))
    simpa using this

/-- On well-formed references `RequirementsInfo.init` succeeds and builds the
insert-fold of direct records. -/
theorem RequirementsInfo.init_wf (reqs : List PackageReference)
    (nd : Option (List String)) (h : ∀ r ∈ reqs, r.wf = true) :
    RequirementsInfo.init reqs nd = some ⟨nd, insFold reqs false []⟩ := by
  rw [RequirementsInfo.init, foldlM_insert_eq reqs false h []]
  rfl

/-- On well-formed references `RequirementsInfo.add` succeeds and overwrites
with indirect records. -/
theorem RequirementsInfo.add_wf (ri : RequirementsInfo) (reqs : List PackageReference)
    (h : ∀ r ∈ reqs, r.wf = true) :
    ri.add reqs = some ⟨ri.non_devs_requirements, insFold reqs true ri.data⟩ := by
  rw [RequirementsInfo.add, foldlM_insert_eq reqs true h ri.data]
  rfl

/-- On well-formed references `ConanInfo.create` succeeds, with the
requirement dictionary given by the two insert-folds. -/
theorem ConanInfo.create_wf (settings : Values) (options : OptionsValues)
    (requires indirect_requires : List PackageReference) (nd : Option (List String))
    (hd : ∀ r ∈ requires, r.wf = true) (hi : ∀ r ∈ indirect_requires, r.wf = true) :
    ConanInfo.create settings options requires indirect_requires nd =
      some { full_settings := settings
             settings := settings
             full_options := options
             options := options.clear_indirect
             full_requires := requires ++ indirect_requires
             requires := ⟨nd, insFold indirect_requires true (insFold requires false [])⟩
             scope := some none
             non_devs_requirements := some nd
             package_id_cached := none } := by
  have hadd := RequirementsInfo.add_wf ⟨nd, insFold requires false []⟩
    indirect_requires hi
  rw [ConanInfo.create, RequirementsInfo.init_wf requires nd hd]
  simp only [Option.bind_eq_bind, Option.some_bind, hadd]
  rfl

theorem insFold_lookup (reqs : List PackageReference) (ind : Bool)
    (m : List (PackageReference × RequirementInfo)) (j : PackageReference) :
    (insFold reqs ind m).lookup j =
      if j ∈ reqs then some (RequirementInfo.ofRef j ind) else m.lookup j := by
  induction reqs generalizing m with
  | nil => simp [insFold]
  | cons r reqs ih =>
    rw [insFold_cons, ih]
    by_cases hj : j ∈ reqs
    · rw [if_pos hj, if_pos (List.mem_cons_of_mem r hj)]
    · rw [if_neg hj, dictInsert_lookup]
      by_cases hjr : j = r
      · subst hjr
        rw [if_pos rfl, if_pos (List.mem_cons_self j reqs)]
      · rw [if_neg hjr, if_neg]
        intro hc
        rcases List.mem_cons.mp hc with hc | hc
        · exact hjr hc
        · exact hj hc

theorem insFold_keys_mem (reqs : List PackageReference) (ind : Bool)
    (m : List (PackageReference × RequirementInfo)) (j : PackageReference) :
    j ∈ (insFold reqs ind m).map Prod.fst ↔ j ∈ m.map Prod.fst ∨ j ∈ reqs := by
  induction reqs generalizing m with
  | nil => simp [insFold]
  | cons r reqs ih =>
    rw [insFold_cons, ih, dictInsert_keys_mem]
    simp only [List.mem_cons]
    tauto

theorem insFold_keys_nodup (reqs : List PackageReference) (ind : Bool)
    (m : List (PackageReference × RequirementInfo))
    (h : (m.map Prod.fst).Nodup) : ((insFold reqs ind m).map Prod.fst).Nodup := by
  induction reqs generalizing m with
  | nil => simpa [insFold] using h
  | cons r reqs ih =>
    rw [insFold_cons]
    exact ih _ (dictInsert_keys_nodup m r _ h)

theorem sortRefs_perm (l : List PackageReference) : (sortRefs l).Perm l :=
  List.perm_insertionSort refLe l

theorem sortRefs_sorted (l : List PackageReference) : List.Sorted refLe (sortRefs l) :=
  List.sorted_insertionSort refLe l

theorem sortRefs_eq_of_perm {l1 l2 : List PackageReference} (h : l1.Perm l2) :
    sortRefs l1 = sortRefs l2 :=
  List.eq_of_perm_of_sorted ((sortRefs_perm l1).trans (h.trans (sortRefs_perm l2).symm))
    (sortRefs_sorted l1) (sortRefs_sorted l2)

theorem mem_sortRefs {l : List PackageReference} {j : PackageReference} :
    j ∈ sortRefs l ↔ j ∈ l := (sortRefs_perm l).mem_iff

theorem sortRefs_idem (l : List PackageReference) :
    sortRefs (sortRefs l) = sortRefs l :=
  List.Sorted.insertionSort_eq (sortRefs_sorted l)

/-! ## Concrete sample data for the claim instances -/

def refA10 : PackageReference := ⟨"A", "1.0", none, none⟩

def refA11 : PackageReference := ⟨"A", "1.1", none, none⟩

def refB20 : PackageReference := ⟨"B", "2.0", none, none⟩

def refB30 : PackageReference := ⟨"B", "3.0", none, none⟩

def refM10 : PackageReference := ⟨"M", "1.0", none, none⟩

def refZ10 : PackageReference := ⟨"Z", "1.0", none, none⟩

/-! ## Claim C1 -/

/-- The buffer hashed by `identity_hash()` according to the spec's words: for
each key in ascending order that passes the relevance filter, the record's
`identity_line()` — the non-empty identity fields joined by `/` with empty
fields omitted entirely (that is `RequirementInfo.dumps` in the source) —
joined by newlines. -/
def specIdentityBuffer (ri : RequirementsInfo) : String :=
  pyJoin "\n"
    ((sortRefs (ri.data.map Prod.fst)).filterMap
      (fun key =>
        match ri.non_devs_requirements with
        | none => (ri.data.lookup key).map RequirementInfo.dumps
        | some nd =>
          if nd.contains key.name then (ri.data.lookup key).map RequirementInfo.dumps
          else none))

/-- The identity hash as claim C1 describes it. -/
def specIdentityHash (ri : RequirementsInfo) : Hash := sha1 (specIdentityBuffer ri)

/-- Claim C1, as stated, is false: for the requirement set {A/1.0} with no
filter the code hashes the line "A/1.0/None/None/None" (absent fields are
rendered as "None"), not the identity_line "A/1.0" with empty fields
omitted. -/
theorem C1_counterexample :
    RequirementsInfo.init [refA10] none =
        some ⟨none, [(refA10, RequirementInfo.ofRef refA10 false)]⟩ ∧
      RequirementsInfo.shaLines ⟨none, [(refA10, RequirementInfo.ofRef refA10 false)]⟩ =
        ["A/1.0/None/None/None"] ∧
      RequirementsInfo.sha ⟨none, [(refA10, RequirementInfo.ofRef refA10 false)]⟩ ≠
        specIdentityHash ⟨none, [(refA10, RequirementInfo.ofRef refA10 false)]⟩ := by
  refine ⟨by decide, by decide, by decide⟩

/-- The line the code actually appends for a record: all five identity fields
in their fixed order, absent fields rendered as the string "None", joined by
`/`. -/
def amendedIdentityLine (info : RequirementInfo) : String :=
  pyJoin "/" [pyStrOpt info.name, pyStrOpt info.version, pyStrOpt info.user,
    pyStrOpt info.channel, pyStrOpt info.package_id]

/-- The identity hash as amended: the hashed buffer joins, over the keys in
ascending order that pass the relevance filter, the record's all-five-field
line (`None` rendered), not the empty-fields-omitted identity_line. -/
def amendedIdentityHash (ri : RequirementsInfo) : Hash :=
  sha1 (pyJoin "\n"
    ((sortRefs (ri.data.map Prod.fst)).filterMap
      (fun key =>
        match ri.non_devs_requirements with
        | none => (ri.data.lookup key).map amendedIdentityLine
        | some nd =>
          if nd.contains key.name then (ri.data.lookup key).map amendedIdentityLine
          else none)))

/-- Claim C1 as amended holds: for every RequirementSet, `identity_hash()`
is the content hash of the buffer of all-five-field lines (absent fields
rendered as "None") of the filtered keys in ascending order. -/
theorem C1_amended (ri : RequirementsInfo) : ri.sha = amendedIdentityHash ri := by
  obtain ⟨nd, data⟩ := ri
  have hline : amendedIdentityLine = RequirementInfo.sha := funext (fun info => rfl)
  cases nd <;>
    simp [RequirementsInfo.sha, RequirementsInfo.shaLines, amendedIdentityHash, hline]

/-! ## Claim C3 -/

/-- Claim C3: with direct requirement A/1.0 and indirect requirement B/2.0,
replacing the indirect B/2.0 by B/3.0 leaves the identity hash unchanged,
while replacing the direct A/1.0 by A/1.1 changes it.  (The first conjunct
shows the construction succeeds, so the equalities are not vacuous.) -/
theorem C3_diamond_stability :
    ((RequirementsInfo.init [refA10] none).bind
        (fun ri => ri.add [refB20])).isSome = true ∧
    ((RequirementsInfo.init [refA10] none).bind
        (fun ri => ri.add [refB20])).map RequirementsInfo.sha =
      ((RequirementsInfo.init [refA10] none).bind
        (fun ri => ri.add [refB30])).map RequirementsInfo.sha ∧
    ((RequirementsInfo.init [refA11] none).bind
        (fun ri => ri.add [refB20])).map RequirementsInfo.sha ≠
      ((RequirementsInfo.init [refA10] none).bind
        (fun ri => ri.add [refB20])).map RequirementsInfo.sha := by
  refine ⟨by decide, by decide, by decide⟩

/-! ## Claim C4 -/

/-- Claim C4: with `relevance_filter = {A}` and direct requirements A/1.0 and
B/2.0, the hashed buffer holds only A/1.0's line (so the hash equals that of
the set without B, whatever B's version), while `dumps` lists both lines and
tags B/2.0's line with " DEV". -/
theorem C4_dev_exclusion :
    (RequirementsInfo.init [refA10, refB20] (some ["A"])).isSome = true ∧
    (RequirementsInfo.init [refA10, refB20] (some ["A"])).map
        RequirementsInfo.shaLines = some ["A/1.0/None/None/None"] ∧
    (RequirementsInfo.init [refA10, refB20] (some ["A"])).map RequirementsInfo.sha =
      (RequirementsInfo.init [refA10] (some ["A"])).map RequirementsInfo.sha ∧
    (RequirementsInfo.init [refA10, refB20] (some ["A"])).map RequirementsInfo.sha =
      (RequirementsInfo.init [refA10, refB30] (some ["A"])).map RequirementsInfo.sha ∧
    (RequirementsInfo.init [refA10, refB20] (some ["A"])).map RequirementsInfo.dumps =
      some "A/1.0\nB/2.0 DEV" := by
  refine ⟨by decide, by decide, by decide, by decide, by decide⟩

/-! ## Claim C10 -/

/-- Claim C10, as stated, is false: replacing the indirect requirement B/2.0
by Z/1.0 in a set with direct requirements {A/1.0, M/1.0} changes the hash,
because the fixed "None/None/None/None/None" line moves relative to the
direct lines in the key-sorted buffer. -/
theorem C10_counterexample :
    ((RequirementsInfo.init [refA10, refM10] none).bind
        (fun ri => ri.add [refB20])).isSome = true ∧
    ((RequirementsInfo.init [refA10, refM10] none).bind
        (fun ri => ri.add [refZ10])).isSome = true ∧
    ((RequirementsInfo.init [refA10, refM10] none).bind
        (fun ri => ri.add [refB20])).map RequirementsInfo.sha ≠
      ((RequirementsInfo.init [refA10, refM10] none).bind
        (fun ri => ri.add [refZ10])).map RequirementsInfo.sha := by
  refine ⟨by decide, by decide, by decide⟩

theorem filterMap_length_of_isSome {α β : Type} (f : α → Option β) :
    ∀ l : List α, (∀ x ∈ l, (f x).isSome = true) → (l.filterMap f).length = l.length := by
  intro l
  induction l with
  | nil => simp
  | cons a l ih =>
    intro h
    rcases ho : f a with - | b
    · have := h a (List.mem_cons_self _ _)
      rw [ho] at this
      simp at this
    · rw [List.filterMap_cons, ho]
      simp [ih (fun x hx => h x (List.mem_cons_of_mem a hx))]

theorem mem_of_lookup {α β : Type} [BEq α] [LawfulBEq α] [DecidableEq α]
    {m : List (α × β)} {j : α} {b : β} (h : m.lookup j = some b) : (j, b) ∈ m := by
  induction m with
  | nil => simp [List.lookup] at h
  | cons a m ih =>
    rcases a with ⟨k, v⟩
    rw [lookup_cons_eq] at h
    by_cases hk : k = j
    · rw [if_pos hk] at h
      injection h with h
      subst hk
      subst h
      exact List.mem_cons_self _ _
    · rw [if_neg hk] at h
      exact List.mem_cons_of_mem _ (ih h)

theorem pyJoinNl_count (l : String) (ls : List String)
    (h : ∀ x ∈ l :: ls, ('\n') ∉ x.data) :
    ((pyJoin "\n" (l :: ls)).data.count '\n') = ls.length := by
  induction ls generalizing l with
  | nil =>
    rw [pyJoin_single]
    exact List.count_eq_zero.mpr (h l (List.mem_cons_self _ _))
  | cons t ts ih =>
    rw [pyJoin_cons₂, String.data_append, String.data_append, List.count_append,
      List.count_append, List.count_eq_zero.mpr (h l (List.mem_cons_self _ _)),
      ih t (fun x hx => h x (List.mem_cons_of_mem l hx))]
    simp [List.count_cons]
    omega

/-- The length of the no-filter sha-line buffer is the number of entries. -/
theorem shaLines_length_nofilter (ri : RequirementsInfo)
    (hnd : ri.non_devs_requirements = none) :
    ri.shaLines.length = ri.data.length := by
  rw [RequirementsInfo.shaLines, hnd]
  rw [filterMap_length_of_isSome]
  · exact ((sortRefs_perm (ri.data.map Prod.fst)).length_eq).trans
      (List.length_map ri.data Prod.fst)
  · intro key hkey
    obtain ⟨b, hb⟩ := lookup_isSome_of_mem_keys (mem_sortRefs.mp hkey)
    rw [hb]
    rfl

/-- Every sha line of a set comes from one of its records. -/
theorem shaLines_mem (ri : RequirementsInfo) {x : String} (hx : x ∈ ri.shaLines) :
    ∃ p ∈ ri.data, x = p.2.sha := by
  rw [RequirementsInfo.shaLines] at hx
  rcases hnd : ri.non_devs_requirements with - | nd <;> rw [hnd] at hx
  · rcases List.mem_filterMap.mp hx with ⟨key, -, hkey⟩
    rcases ho : ri.data.lookup key with - | info
    · rw [ho] at hkey
      simp at hkey
    · rw [ho] at hkey
      refine ⟨(key, info), mem_of_lookup ho, ?_⟩
      injection hkey with hkey
      exact hkey.symm
  · rcases List.mem_filterMap.mp hx with ⟨key, -, hkey⟩
    by_cases hf : nd.contains key.name
    · rw [if_pos hf] at hkey
      rcases ho : ri.data.lookup key with - | info
      · rw [ho] at hkey
        simp at hkey
      · rw [ho] at hkey
        refine ⟨(key, info), mem_of_lookup ho, ?_⟩
        injection hkey with hkey
        exact hkey.symm
    · rw [if_neg hf] at hkey
      simp at hkey

/-- Claim C10 as amended: (1) every indirect record contributes the fixed
line "None/None/None/None/None" to the buffer regardless of its reference,
and (2) adding a fresh indirect requirement to a filterless set changes the
identity hash; but which indirect requirement it is can matter (its key's
position among the sorted keys moves, see the counterexample). -/
theorem C10_amended (ri : RequirementsInfo) (k : PackageReference)
    (hnd : ri.non_devs_requirements = none)
    (hfresh : k ∉ ri.data.map Prod.fst)
    (hclean : ∀ p ∈ ri.data, ('\n') ∉ (p.2.sha).data) :
    (∀ ref : PackageReference,
        (RequirementInfo.ofRef ref true).sha = "None/None/None/None/None") ∧
    (∀ ri', ri.add [k] = some ri' → ri'.sha ≠ ri.sha) := by
  constructor
  · intro ref
    rfl
  · intro ri' hadd
    rcases hinit : RequirementInfo.init k.str true with - | info
    · rw [RequirementsInfo.add, List.foldlM_cons, hinit] at hadd
      simp at hadd
    · have hinfo : info.sha = "None/None/None/None/None" := by
        rw [RequirementInfo.init] at hinit
        rcases hl : PackageReference.loads k.str with - | ref
        · rw [hl] at hinit
          simp at hinit
        · rw [hl] at hinit
          injection hinit with hinit
          rw [← hinit]
          rfl
      have hdata' : dictInsert ri.data k info = ri.data ++ [(k, info)] := by
        rw [dictInsert, if_neg]
        intro hany
        exact (hfresh ((any_key_iff ri.data k).mp hany)).elim
      have haddeq : ri.add [k] =
          some ⟨ri.non_devs_requirements, dictInsert ri.data k info⟩ := by
        rw [RequirementsInfo.add, List.foldlM_cons, hinit]
        rfl
      rw [haddeq] at hadd
      injection hadd with hadd
      have hri' : ri' = ⟨ri.non_devs_requirements, ri.data ++ [(k, info)]⟩ := by
        rw [← hadd, hdata']
      have hlen : ri'.shaLines.length = ri.data.length + 1 := by
        rw [shaLines_length_nofilter]
        · rw [hri']
          simp
        · rw [hri']
          exact hnd
      have hlenri : ri.shaLines.length = ri.data.length :=
        shaLines_length_nofilter ri hnd
      have hclean' : ∀ x ∈ ri'.shaLines, ('\n') ∉ x.data := by
        intro x hx
        rcases shaLines_mem ri' hx with ⟨p, hp, hpx⟩
        rw [hri'] at hp
        rcases List.mem_append.mp hp with hp | hp
        · rw [hpx]
          exact hclean p hp
        · rw [List.mem_singleton] at hp
          rw [hpx, hp, hinfo]
          decide
      have hcleanri : ∀ x ∈ ri.shaLines, ('\n') ∉ x.data := by
        intro x hx
        rcases shaLines_mem ri hx with ⟨p, hp, hpx⟩
        rw [hpx]
        exact hclean p hp
      intro heq
      have hbuf : pyJoin "\n" ri'.shaLines = pyJoin "\n" ri.shaLines :=
        congrArg Hash.digest heq
      rcases hls : ri.shaLines with - | ⟨l0, ls0⟩
      · rcases hls' : ri'.shaLines with - | ⟨l1, ls1⟩
        · rw [hls'] at hlen
          simp at hlen
        · rw [hls] at hlenri
          rw [hls'] at hlen
          simp only [List.length_nil, List.length_cons] at hlenri hlen
          have hls1 : ls1 = [] := by
            refine List.length_eq_zero.mp ?_
            omega
          subst hls1
          rw [hls, hls'] at hbuf
          rw [pyJoin_single, pyJoin_nil] at hbuf
          have hl1 : l1 ∈ ri'.shaLines := by
            rw [hls']
            exact List.mem_cons_self _ _
          rcases shaLines_mem ri' hl1 with ⟨p, hp, hpx⟩
          rw [hri'] at hp
          rcases List.mem_append.mp hp with hp | hp
          · have hdnil : ri.data = [] := List.length_eq_zero.mp hlenri.symm
            rw [hdnil] at hp
            simp at hp
          · rw [List.mem_singleton] at hp
            rw [hp] at hpx
            rw [hpx, hinfo] at hbuf
            exact absurd (congrArg String.data hbuf) (by decide)
      · rcases hls' : ri'.shaLines with - | ⟨l1, ls1⟩
        · rw [hls'] at hlen
          simp at hlen
        · have hc1 : ((pyJoin "\n" (l1 :: ls1)).data.count '\n') = ls1.length := by
            refine pyJoinNl_count l1 ls1 ?_
            rw [← hls']
            exact hclean'
          have hc0 : ((pyJoin "\n" (l0 :: ls0)).data.count '\n') = ls0.length := by
            refine pyJoinNl_count l0 ls0 ?_
            rw [← hls]
            exact hcleanri
          rw [hls, hls'] at hbuf
          rw [hbuf, hc0] at hc1
          rw [hls'] at hlen
          rw [hls] at hlenri
          simp only [List.length_cons] at hlen hlenri
          omega

/-! ## Claims C5 and C8 -/

theorem strAppend_assoc (a b c : String) : a ++ b ++ c = a ++ (b ++ c) :=
  strData_inj (by simp [String.data_append])

/-- Computation of `package_id` on an uncached object with the filter set. -/
theorem package_id_compute (c : ConanInfo) (nd : Option (List String))
    (hcache : c.package_id_cached = none)
    (hnd : c.non_devs_requirements = some nd) :
    c.package_id =
      .ok (sha1 (pyJoin "\n" [c.settings.sha.digest, (c.options.sha nd).digest,
          c.requires.sha.digest]),
        { c with package_id_cached := some (sha1 (pyJoin "\n" [c.settings.sha.digest,
          (c.options.sha nd).digest, c.requires.sha.digest])) }) := by
  rw [ConanInfo.package_id, hcache, hnd]

/-- A cached `package_id` is returned as-is, with no recomputation and no
state change. -/
theorem package_id_cached_eq (c : ConanInfo) (h : Hash)
    (hcache : c.package_id_cached = some h) : c.package_id = .ok (h, c) := by
  rw [ConanInfo.package_id, hcache]

/-- Reading `package_id` on an object whose `_non_devs_requirements`
attribute was never assigned raises AttributeError. -/
theorem package_id_attr_error (c : ConanInfo)
    (hcache : c.package_id_cached = none)
    (hnd : c.non_devs_requirements = none) :
    c.package_id = .error (.attributeError "_non_devs_requirements") := by
  rw [ConanInfo.package_id, hcache, hnd]

/-- The attribute values assigned by `create`. -/
theorem ConanInfo.create_fields {settings : Values} {options : OptionsValues}
    {requires indirect_requires : List PackageReference} {nd : Option (List String)}
    {c : ConanInfo}
    (hc : ConanInfo.create settings options requires indirect_requires nd = some c) :
    c.package_id_cached = none ∧ c.non_devs_requirements = some nd ∧
      c.settings = settings ∧ c.full_settings = settings ∧
      c.options = options.clear_indirect ∧ c.full_options = options ∧
      c.scope = some none ∧ c.full_requires = requires ++ indirect_requires := by
  rw [ConanInfo.create] at hc
  rcases h1 : RequirementsInfo.init requires nd with - | ri0
  · rw [h1] at hc
    simp at hc
  · rw [h1] at hc
    simp only [Option.bind_eq_bind, Option.some_bind] at hc
    rcases h2 : ri0.add indirect_requires with - | ri1
    · rw [h2] at hc
      simp at hc
    · rw [h2] at hc
      simp only [Option.some_bind, Option.pure_def] at hc
      injection hc with hc
      rw [← hc]
      exact ⟨rfl, rfl, rfl, rfl, rfl, rfl, rfl, rfl⟩

/-- The attribute values assigned by `loads`: in particular neither
`_non_devs_requirements` nor `_package_id` is ever assigned. -/
theorem ConanInfo.loads_fields {text : String} {c : ConanInfo}
    (hc : ConanInfo.loads text = some c) :
    c.non_devs_requirements = none ∧ c.package_id_cached = none ∧
      c.scope.isSome = true := by
  rw [ConanInfo.loads] at hc
  simp only [Option.bind_eq_bind, Option.bind_eq_some, Option.pure_def,
    Option.some.injEq] at hc
  obtain ⟨p, hp, s1, hs1, s2, hs2, s3, hs3, s4, hs4, s5, hs5, s6, hs6, fr, hfr, rq,
    hrq, hc⟩ := hc
  rw [← hc]
  exact ⟨rfl, rfl, rfl⟩

/-- The attribute values assigned by `deserialize`: in particular neither
`_non_devs_requirements` nor `_package_id` (nor `scope`) is ever assigned. -/
theorem ConanInfo.deserialize_fields {d : ConanInfoData} {c : ConanInfo}
    (hc : ConanInfo.deserialize d = some c) :
    c.non_devs_requirements = none ∧ c.package_id_cached = none ∧ c.scope = none := by
  rw [ConanInfo.deserialize] at hc
  simp only [Option.bind_eq_bind, Option.bind_eq_some, Option.pure_def,
    Option.some.injEq] at hc
  obtain ⟨rq, hrq, fr, hfr, hc⟩ := hc
  rw [← hc]
  exact ⟨rfl, rfl, rfl⟩

/-- Claim C5: on every BuildIdentity produced by `create`, `package_id`
returns the hash of the settings sub-hash, the options sub-hash (under the
relevance filter) and the requirements sub-hash joined by newlines in that
order; the result is stored in the cache slot and every subsequent call
returns the cached value unchanged. -/
theorem C5_package_identity (settings : Values) (options : OptionsValues)
    (requires indirect_requires : List PackageReference)
    (nd : Option (List String)) (c : ConanInfo)
    (hc : ConanInfo.create settings options requires indirect_requires nd = some c) :
    ∃ c' : ConanInfo,
      c.package_id =
        .ok (sha1 (c.settings.sha.digest ++ "\n" ++ (c.options.sha nd).digest ++ "\n"
          ++ c.requires.sha.digest), c') ∧
      c'.package_id_cached =
        some (sha1 (c.settings.sha.digest ++ "\n" ++ (c.options.sha nd).digest ++ "\n"
          ++ c.requires.sha.digest)) ∧
      c'.package_id =
        .ok (sha1 (c.settings.sha.digest ++ "\n" ++ (c.options.sha nd).digest ++ "\n"
          ++ c.requires.sha.digest), c') := by
  obtain ⟨hcache, hnd, -⟩ := ConanInfo.create_fields hc
  have hjoin : c.settings.sha.digest ++ "\n" ++ (c.options.sha nd).digest ++ "\n"
      ++ c.requires.sha.digest =
      pyJoin "\n" [c.settings.sha.digest, (c.options.sha nd).digest,
        c.requires.sha.digest] := by
    refine strData_inj ?_
    simp [pyJoin_cons₂, pyJoin_single, String.data_append]
  rw [hjoin]
  refine ⟨_, package_id_compute c nd hcache hnd, rfl, ?_⟩
  exact package_id_cached_eq _ _ rfl

/-- Witness for C5 at a concrete build identity. -/
theorem C5_witness :
    ∃ c : ConanInfo,
      ConanInfo.create ⟨["os=Linux"]⟩ ⟨["shared=False"], []⟩ [refA10] [refB20] none =
        some c ∧
      ∃ c' : ConanInfo,
        c.package_id =
          .ok (sha1 (c.settings.sha.digest ++ "\n" ++ (c.options.sha none).digest ++ "\n"
            ++ c.requires.sha.digest), c') ∧
        c'.package_id_cached =
          some (sha1 (c.settings.sha.digest ++ "\n" ++ (c.options.sha none).digest ++ "\n"
            ++ c.requires.sha.digest)) ∧
        c'.package_id =
          .ok (sha1 (c.settings.sha.digest ++ "\n" ++ (c.options.sha none).digest ++ "\n"
            ++ c.requires.sha.digest), c') := by
  rcases hc : ConanInfo.create ⟨["os=Linux"]⟩ ⟨["shared=False"], []⟩ [refA10] [refB20]
      none with - | c
  · have : (ConanInfo.create ⟨["os=Linux"]⟩ ⟨["shared=False"], []⟩ [refA10] [refB20]
        none).isSome = true := by decide
    rw [hc] at this
    simp at this
  · exact ⟨c, rfl, C5_package_identity _ _ _ _ _ c hc⟩

/-- Claim C8: a BuildIdentity obtained by `loads` or `deserialize` fails on
`package_id` with an AttributeError on the never-assigned
`_non_devs_requirements`; one obtained by `create` succeeds. -/
theorem C8_uninitialized_filter :
    (∀ (text : String) (c : ConanInfo), ConanInfo.loads text = some c →
       c.package_id = .error (.attributeError "_non_devs_requirements")) ∧
    (∀ (d : ConanInfoData) (c : ConanInfo), ConanInfo.deserialize d = some c →
       c.package_id = .error (.attributeError "_non_devs_requirements")) ∧
    (∀ (settings : Values) (options : OptionsValues)
       (requires indirect_requires : List PackageReference)
       (nd : Option (List String)) (c : ConanInfo),
       ConanInfo.create settings options requires indirect_requires nd = some c →
       ∃ (h : Hash) (c' : ConanInfo), c.package_id = .ok (h, c')) := by
  refine ⟨?_, ?_, ?_⟩
  · intro text c hc
    obtain ⟨hnd, hcache, -⟩ := ConanInfo.loads_fields hc
    exact package_id_attr_error c hcache hnd
  · intro d c hc
    obtain ⟨hnd, hcache, -⟩ := ConanInfo.deserialize_fields hc
    exact package_id_attr_error c hcache hnd
  · intro settings options requires indirect_requires nd c hc
    obtain ⟨hcache, hnd, -⟩ := ConanInfo.create_fields hc
    exact ⟨_, _, package_id_compute c nd hcache hnd⟩

/-- The canonical text of an empty build identity, used as a loads input. -/
def emptyIdentityText : String :=
  "[settings]\n[full_settings]\n[options]\n[full_options]\n[requires]\n" ++
    "[full_requires]\n[scope]"

/-- Witness for C8: a concrete loads-produced identity fails on package_id, a
concrete deserialize-produced one fails, and a concrete create-produced one
succeeds. -/
theorem C8_witness :
    (∃ c : ConanInfo, ConanInfo.loads emptyIdentityText = some c ∧
       c.package_id = .error (.attributeError "_non_devs_requirements")) ∧
    (∃ c : ConanInfo, ConanInfo.deserialize ⟨[], [], [], [], [], []⟩ = some c ∧
       c.package_id = .error (.attributeError "_non_devs_requirements")) ∧
    (∃ c : ConanInfo,
       ConanInfo.create ⟨[]⟩ ⟨[], []⟩ [refA10] [] none = some c ∧
       ∃ (h : Hash) (c' : ConanInfo), c.package_id = .ok (h, c')) := by
  refine ⟨?_, ?_, ?_⟩
  · rcases hc : ConanInfo.loads emptyIdentityText with - | c
    · have : (ConanInfo.loads emptyIdentityText).isSome = true := by decide
      rw [hc] at this
      simp at this
    · exact ⟨c, rfl, C8_uninitialized_filter.1 emptyIdentityText c hc⟩
  · rcases hc : ConanInfo.deserialize ⟨[], [], [], [], [], []⟩ with - | c
    · have : (ConanInfo.deserialize ⟨[], [], [], [], [], []⟩).isSome = true := by decide
      rw [hc] at this
      simp at this
    · exact ⟨c, rfl, C8_uninitialized_filter.2.1 _ c hc⟩
  · rcases hc : ConanInfo.create ⟨[]⟩ ⟨[], []⟩ [refA10] [] none with - | c
    · have : (ConanInfo.create ⟨[]⟩ ⟨[], []⟩ [refA10] [] none).isSome = true := by decide
      rw [hc] at this
      simp at this
    · exact ⟨c, rfl, C8_uninitialized_filter.2.2 _ _ _ _ _ c hc⟩

/-- A one-record direct requirement set used by concrete instances. -/
def sampleSetA : RequirementsInfo :=
  ⟨none, [(refA10, RequirementInfo.ofRef refA10 false)]⟩

/-- Witness for C10 at a concrete set: the hypotheses hold for {A/1.0} with
the fresh indirect key B/2.0, the insertion succeeds, and the conclusion of
the amended claim follows. -/
theorem C10_amended_witness :
    sampleSetA.non_devs_requirements = none ∧
    refB20 ∉ sampleSetA.data.map Prod.fst ∧
    (sampleSetA.add [refB20]).isSome = true ∧
    ((∀ ref : PackageReference,
        (RequirementInfo.ofRef ref true).sha = "None/None/None/None/None") ∧
      (∀ ri', sampleSetA.add [refB20] = some ri' → ri'.sha ≠ sampleSetA.sha)) := by
  refine ⟨rfl, by decide, by decide, C10_amended sampleSetA refB20 rfl (by decide)
    (by decide)⟩

/-! ## Claim C7 -/

theorem filter_eq_singleton_iff {α : Type} {pred : α → Bool} {l : List α}
    (hnd : l.Nodup) (p : α) :
    l.filter pred = [p] ↔
      p ∈ l ∧ pred p = true ∧ ∀ q ∈ l, pred q = true → q = p := by
  induction l with
  | nil => simp
  | cons a l ih =>
    rw [List.nodup_cons] at hnd
    by_cases ha : pred a
    · rw [List.filter_cons_of_pos ha]
      constructor
      · intro h
        injection h with h1 h2
        subst h1
        refine ⟨List.mem_cons_self _ _, ha, ?_⟩
        intro q hq hpq
        rcases List.mem_cons.mp hq with rfl | hq
        · rfl
        · have : q ∈ l.filter pred := List.mem_filter.mpr ⟨hq, hpq⟩
          rw [h2] at this
          simp at this
      · rintro ⟨hp, hpp, huniq⟩
        have hap : a = p := huniq a (List.mem_cons_self _ _) ha
        subst hap
        have hfl : l.filter pred = [] := by
          refine List.filter_eq_nil_iff.mpr ?_
          intro q hq hpq
          exact hnd.1 (huniq q (List.mem_cons_of_mem a hq) hpq ▸ hq)
        rw [hfl]
    · rw [List.filter_cons_of_neg ha, ih hnd.2]
      constructor
      · rintro ⟨hp, hpp, huniq⟩
        refine ⟨List.mem_cons_of_mem a hp, hpp, ?_⟩
        intro q hq hpq
        rcases List.mem_cons.mp hq with rfl | hq
        · exact absurd hpq (by simp [ha])
        · exact huniq q hq hpq
      · rintro ⟨hp, hpp, huniq⟩
        rcases List.mem_cons.mp hp with rfl | hp'
        · exact absurd hpp (by simp [ha])
        · exact ⟨hp', hpp, fun q hq hpq => huniq q (List.mem_cons_of_mem a hq) hpq⟩

theorem getitem_of_filter_nil (ri : RequirementsInfo) (item : String)
    (hf : ri.data.filter (fun p => pyStartsWith p.1.str item) = []) :
    ri.getitem item = .error (.conanException ("No match for " ++ item)) := by
  rw [RequirementsInfo.getitem, hf]

theorem getitem_of_filter_single (ri : RequirementsInfo) (item : String)
    (p : PackageReference × RequirementInfo)
    (hf : ri.data.filter (fun p => pyStartsWith p.1.str item) = [p]) :
    ri.getitem item = .ok p.2 := by
  rw [RequirementsInfo.getitem, hf]

theorem getitem_of_filter_two (ri : RequirementsInfo) (item : String)
    (p0 p1 : PackageReference × RequirementInfo)
    (ps : List (PackageReference × RequirementInfo))
    (hf : ri.data.filter (fun p => pyStartsWith p.1.str item) = p0 :: p1 :: ps) :
    ri.getitem item = .error (.conanException ("No match for " ++ item)) := by
  rw [RequirementsInfo.getitem, hf]

/-- Claim C7: on a duplicate-free requirement set, `__getitem__` returns
exactly the record of the unique entry whose key text starts with `item`
when one exists, and raises ConanException when zero or several entries
match — it never silently picks one of several matches. -/
theorem C7_getitem (ri : RequirementsInfo) (item : String) (hnd : ri.data.Nodup) :
    (∀ info : RequirementInfo,
       ri.getitem item = .ok info ↔
         ∃ p ∈ ri.data, pyStartsWith p.1.str item = true ∧ p.2 = info ∧
           ∀ q ∈ ri.data, pyStartsWith q.1.str item = true → q = p) ∧
    ((∃ e, ri.getitem item = .error e) ↔
       ¬ ∃ p ∈ ri.data, pyStartsWith p.1.str item = true ∧
           ∀ q ∈ ri.data, pyStartsWith q.1.str item = true → q = p) := by
  constructor
  · intro info
    constructor
    · intro h
      rcases hf : ri.data.filter (fun p => pyStartsWith p.1.str item) with - | ⟨p0, ps⟩
      · rw [getitem_of_filter_nil ri item hf] at h
        exact absurd h (by simp)
      · rcases ps with - | ⟨p1, ps⟩
        · rw [getitem_of_filter_single ri item p0 hf] at h
          injection h with h
          obtain ⟨hp0, hpred0, huniq0⟩ := (filter_eq_singleton_iff hnd p0).mp hf
          exact ⟨p0, hp0, hpred0, h, huniq0⟩
        · rw [getitem_of_filter_two ri item p0 p1 ps hf] at h
          exact absurd h (by simp)
    · rintro ⟨p, hp, hpred, hpinfo, huniq⟩
      have hf : ri.data.filter (fun p => pyStartsWith p.1.str item) = [p] :=
        (filter_eq_singleton_iff hnd p).mpr ⟨hp, hpred, huniq⟩
      rw [getitem_of_filter_single ri item p hf, hpinfo]
  · constructor
    · rintro ⟨e, he⟩ ⟨p, hp, hpred, huniq⟩
      have hf : ri.data.filter (fun p => pyStartsWith p.1.str item) = [p] :=
        (filter_eq_singleton_iff hnd p).mpr ⟨hp, hpred, huniq⟩
      rw [getitem_of_filter_single ri item p hf] at he
      exact absurd he (by simp)
    · intro h
      rcases hf : ri.data.filter (fun p => pyStartsWith p.1.str item) with - | ⟨p0, ps⟩
      · exact ⟨_, getitem_of_filter_nil ri item hf⟩
      · rcases ps with - | ⟨p1, ps⟩
        · obtain ⟨hp0, hpred0, huniq0⟩ := (filter_eq_singleton_iff hnd p0).mp hf
          exact absurd ⟨p0, hp0, hpred0, huniq0⟩ h
        · exact ⟨_, getitem_of_filter_two ri item p0 p1 ps hf⟩

instance : DecidableEq (Except ConanError RequirementInfo) := fun a b =>
  match a, b with
  | .ok x, .ok y =>
    if h : x = y then .isTrue (by rw [h]) else .isFalse (fun hc => h (by injection hc))
  | .error x, .error y =>
    if h : x = y then .isTrue (by rw [h]) else .isFalse (fun hc => h (by injection hc))
  | .ok x, .error y => .isFalse (fun hc => Except.noConfusion hc)
  | .error x, .ok y => .isFalse (fun hc => Except.noConfusion hc)

def refBoost : PackageReference := ⟨"Boost", "1.0", none, none⟩

def refBoostExtra : PackageReference := ⟨"BoostExtra", "2.0", none, none⟩

/-- The {Boost/1.0, BoostExtra/2.0} requirement set of the spec's ambiguous
lookup example. -/
def sampleBoostSet : RequirementsInfo :=
  ⟨none, [(refBoost, RequirementInfo.ofRef refBoost false),
          (refBoostExtra, RequirementInfo.ofRef refBoostExtra false)]⟩

/-- Witness for C7: in {Boost/1.0, BoostExtra/2.0}, the text "Boost/1"
matches exactly the Boost/1.0 entry (getitem returns its record) while the
text "Boost" is ambiguous (getitem raises; no unique match exists). -/
theorem C7_witness :
    sampleBoostSet.data.Nodup ∧
    (∃ p ∈ sampleBoostSet.data, pyStartsWith p.1.str "Boost/1" = true ∧
       p.2 = RequirementInfo.ofRef refBoost false ∧
       ∀ q ∈ sampleBoostSet.data, pyStartsWith q.1.str "Boost/1" = true → q = p) ∧
    ¬ ∃ p ∈ sampleBoostSet.data, pyStartsWith p.1.str "Boost" = true ∧
       ∀ q ∈ sampleBoostSet.data, pyStartsWith q.1.str "Boost" = true → q = p := by
  refine ⟨by decide, ?_, ?_⟩
  · exact ((C7_getitem sampleBoostSet "Boost/1" (by decide)).1
      (RequirementInfo.ofRef refBoost false)).mp (by decide)
  · exact ((C7_getitem sampleBoostSet "Boost" (by decide)).2).mp
      ⟨.conanException ("No match for " ++ "Boost"), by decide⟩

/-! ## Claim C9 -/

theorem dictInsert_mem_cases (m : List (PackageReference × RequirementInfo))
    (k : PackageReference) (v : RequirementInfo)
    (q : PackageReference × RequirementInfo) (hq : q ∈ dictInsert m k v) :
    q ∈ m ∨ q = (k, v) := by
  rw [dictInsert] at hq
  split at hq
  · rcases List.mem_map.mp hq with ⟨p, hp, he⟩
    by_cases hpk : p.1 = k
    · rw [if_pos hpk] at he
      exact Or.inr he.symm
    · rw [if_neg hpk] at he
      exact Or.inl (he ▸ hp)
  · rcases List.mem_append.mp hq with h | h
    · exact Or.inl h
    · rw [List.mem_singleton] at h
      exact Or.inr h

theorem foldl_dictInsert_mem (l : List (PackageReference × RequirementInfo))
    (f : PackageReference × RequirementInfo → RequirementInfo) :
    ∀ (m : List (PackageReference × RequirementInfo))
      (q : PackageReference × RequirementInfo),
      q ∈ l.foldl (fun acc p => dictInsert acc p.1 (f p)) m →
      q ∈ m ∨ ∃ p ∈ l, q = (p.1, f p) := by
  induction l with
  | nil =>
    intro m q hq
    exact Or.inl hq
  | cons a l ih =>
    intro m q hq
    rw [List.foldl_cons] at hq
    rcases ih (dictInsert m a.1 (f a)) q hq with h | ⟨p, hp, he⟩
    · rcases dictInsert_mem_cases m a.1 (f a) q h with h | h
      · exact Or.inl h
      · exact Or.inr ⟨a, List.mem_cons_self _ _, h⟩
    · exact Or.inr ⟨p, List.mem_cons_of_mem a hp, he⟩

theorem deserialize_serialize_fold (l : List (PackageReference × RequirementInfo))
    (hwf : ∀ p ∈ l, p.1.wf = true ∧ p.2.package.wf = true) :
    ∀ m, ((l.map (fun p => (p.1.str, p.2.serialize))).foldlM
        (fun acc p => do
          let ref ← PackageReference.loads p.1
          let info ← RequirementInfo.deserialize p.2
          pure (dictInsert acc ref info)) m) =
      some (l.foldl
        (fun acc p => dictInsert acc p.1 (RequirementInfo.ofRef p.2.package false)) m) := by
  induction l with
  | nil =>
    intro m
    rfl
  | cons a l ih =>
    intro m
    obtain ⟨hk, hv⟩ := hwf a (List.mem_cons_self a l)
    have hloadk : PackageReference.loads a.1.str = some a.1 :=
      PackageReference.loads_str hk
    have hloadv : RequirementInfo.deserialize a.2.serialize =
        some (RequirementInfo.ofRef a.2.package false) := by
      rw [RequirementInfo.deserialize, RequirementInfo.serialize, RequirementInfo.init,
        PackageReference.loads_str hv]
      rfl
    rw [List.map_cons, List.foldlM_cons]
    simp only [hloadk, hloadv, Option.bind_eq_bind, Option.some_bind, Option.pure_def]
    rw [List.foldl_cons]
    exact ih (fun p hp => hwf p (List.mem_cons_of_mem a hp)) _

/-- Claim C9: for every RequirementSet of well-formed references, the
structured round-trip `from_structured(to_structured(s))` succeeds, drops
the relevance filter, and rebuilds every record as a direct record whose
name and (stabilised) version come from its reference text — even when the
original record was indirect. -/
theorem C9_structured_roundtrip (ri : RequirementsInfo)
    (hwf : ∀ p ∈ ri.data, p.1.wf = true ∧ p.2.package.wf = true) :
    ∃ ri', RequirementsInfo.deserialize ri.serialize = some ri' ∧
      ri'.non_devs_requirements = none ∧
      ∀ q ∈ ri'.data, ∃ p ∈ ri.data,
        q = (p.1, RequirementInfo.ofRef p.2.package false) ∧
        q.2.name = some p.2.package.name ∧
        q.2.version = some (Version.stable p.2.package.version) := by
  refine ⟨⟨none, ri.data.foldl
    (fun acc p => dictInsert acc p.1 (RequirementInfo.ofRef p.2.package false)) []⟩,
    ?_, rfl, ?_⟩
  · rw [RequirementsInfo.deserialize, RequirementsInfo.serialize,
      deserialize_serialize_fold ri.data hwf []]
    rfl
  · intro q hq
    rcases foldl_dictInsert_mem ri.data
      (fun p => RequirementInfo.ofRef p.2.package false) [] q hq with h | ⟨p, hp, he⟩
    · simp at h
    · refine ⟨p, hp, he, ?_, ?_⟩
      · rw [he]
        rfl
      · rw [he]
        rfl

/-- A set holding a direct A/1.0 and an indirect B/2.0 record, with a
relevance filter. -/
def sampleSetMixed : RequirementsInfo :=
  ⟨some ["A"], [(refA10, RequirementInfo.ofRef refA10 false),
                (refB20, RequirementInfo.ofRef refB20 true)]⟩

/-- Witness for C9 at a concrete mixed set: the round-trip succeeds and every
rebuilt record is direct; in particular the indirect B/2.0 record comes back
as a direct record with name and version populated, and the filter is gone. -/
theorem C9_witness :
    (∀ p ∈ sampleSetMixed.data, p.1.wf = true ∧ p.2.package.wf = true) ∧
    (∃ ri', RequirementsInfo.deserialize sampleSetMixed.serialize = some ri' ∧
      ri'.non_devs_requirements = none ∧
      ∀ q ∈ ri'.data, ∃ p ∈ sampleSetMixed.data,
        q = (p.1, RequirementInfo.ofRef p.2.package false) ∧
        q.2.name = some p.2.package.name ∧
        q.2.version = some (Version.stable p.2.package.version)) ∧
    RequirementsInfo.deserialize sampleSetMixed.serialize =
      some ⟨none, [(refA10, RequirementInfo.ofRef refA10 false),
                   (refB20, RequirementInfo.ofRef refB20 false)]⟩ := by
  refine ⟨by decide, C9_structured_roundtrip sampleSetMixed (by decide), by decide⟩

/-! ## Claim C6 -/

/-- Two requirement sets with the same filter, the same key set (without
duplicates) and the same key-to-record mapping produce identical sha-line
buffers. -/
theorem shaLines_ext (a b : RequirementsInfo)
    (hnd : a.non_devs_requirements = b.non_devs_requirements)
    (hka : (a.data.map Prod.fst).Nodup) (hkb : (b.data.map Prod.fst).Nodup)
    (hkeys : ∀ k, k ∈ a.data.map Prod.fst ↔ k ∈ b.data.map Prod.fst)
    (hlook : ∀ k, a.data.lookup k = b.data.lookup k) :
    a.shaLines = b.shaLines := by
  have hperm : (a.data.map Prod.fst).Perm (b.data.map Prod.fst) :=
    (List.perm_ext_iff_of_nodup hka hkb).mpr hkeys
  have hsort : sortRefs (a.data.map Prod.fst) = sortRefs (b.data.map Prod.fst) :=
    sortRefs_eq_of_perm hperm
  rw [RequirementsInfo.shaLines, RequirementsInfo.shaLines, hnd]
  rcases b.non_devs_requirements with - | nd'
  · rw [hsort]
    exact List.filterMap_congr (fun k hk => by rw [hlook k])
  · rw [hsort]
    exact List.filterMap_congr (fun k hk => by rw [hlook k])

/-- Claim C6: two BuildIdentity values created from the same settings,
options and relevance filter, with the direct and indirect requirement lists
supplied in different orders, produce byte-identical package identities. -/
theorem C6_insertion_order_determinism (settings : Values) (options : OptionsValues)
    (d1 d2 i1 i2 : List PackageReference) (nd : Option (List String))
    (c1 c2 : ConanInfo)
    (hd : d1.Perm d2) (hi : i1.Perm i2)
    (hwfd : ∀ r ∈ d1, r.wf = true) (hwfi : ∀ r ∈ i1, r.wf = true)
    (hc1 : ConanInfo.create settings options d1 i1 nd = some c1)
    (hc2 : ConanInfo.create settings options d2 i2 nd = some c2) :
    ∃ (h : Hash) (c1' c2' : ConanInfo),
      c1.package_id = .ok (h, c1') ∧ c2.package_id = .ok (h, c2') := by
  have hwfd2 : ∀ r ∈ d2, r.wf = true := fun r hr => hwfd r (hd.mem_iff.mpr hr)
  have hwfi2 : ∀ r ∈ i2, r.wf = true := fun r hr => hwfi r (hi.mem_iff.mpr hr)
  rw [ConanInfo.create_wf settings options d1 i1 nd hwfd hwfi] at hc1
  rw [ConanInfo.create_wf settings options d2 i2 nd hwfd2 hwfi2] at hc2
  injection hc1 with hc1
  injection hc2 with hc2
  subst hc1
  subst hc2
  have hnodup1 : ((insFold i1 true (insFold d1 false [])).map Prod.fst).Nodup :=
    insFold_keys_nodup i1 true _ (insFold_keys_nodup d1 false [] (by simp))
  have hnodup2 : ((insFold i2 true (insFold d2 false [])).map Prod.fst).Nodup :=
    insFold_keys_nodup i2 true _ (insFold_keys_nodup d2 false [] (by simp))
  have hsha : RequirementsInfo.sha ⟨nd, insFold i1 true (insFold d1 false [])⟩ =
      RequirementsInfo.sha ⟨nd, insFold i2 true (insFold d2 false [])⟩ := by
    rw [RequirementsInfo.sha, RequirementsInfo.sha]
    rw [shaLines_ext ⟨nd, insFold i1 true (insFold d1 false [])⟩
      ⟨nd, insFold i2 true (insFold d2 false [])⟩ rfl hnodup1 hnodup2 ?_ ?_]
    · intro k
      rw [insFold_keys_mem, insFold_keys_mem, insFold_keys_mem, insFold_keys_mem]
      simp only [List.map_nil, List.not_mem_nil, false_or]
      rw [hd.mem_iff, hi.mem_iff]
    · intro k
      rw [insFold_lookup, insFold_lookup, insFold_lookup, insFold_lookup]
      by_cases hki : k ∈ i1
      · rw [if_pos hki, if_pos (hi.mem_iff.mp hki)]
      · rw [if_neg hki, if_neg (fun hc => hki (hi.mem_iff.mpr hc))]
        by_cases hkd : k ∈ d1
        · rw [if_pos hkd, if_pos (hd.mem_iff.mp hkd)]
        · rw [if_neg hkd, if_neg (fun hc => hkd (hd.mem_iff.mpr hc))]
  have h1 := package_id_compute
    { full_settings := settings, settings := settings,
      full_options := options, options := options.clear_indirect,
      full_requires := d1 ++ i1,
      requires := ⟨nd, insFold i1 true (insFold d1 false [])⟩,
      scope := some none, non_devs_requirements := some nd,
      package_id_cached := none } nd rfl rfl
  have h2 := package_id_compute
    { full_settings := settings, settings := settings,
      full_options := options, options := options.clear_indirect,
      full_requires := d2 ++ i2,
      requires := ⟨nd, insFold i2 true (insFold d2 false [])⟩,
      scope := some none, non_devs_requirements := some nd,
      package_id_cached := none } nd rfl rfl
  have hhash : (RequirementsInfo.sha ⟨nd, insFold i2 true (insFold d2 false [])⟩).digest =
      (RequirementsInfo.sha ⟨nd, insFold i1 true (insFold d1 false [])⟩).digest := by
    rw [hsha]
  rw [hhash] at h2
  exact ⟨_, _, _, h1, h2⟩

/-- Witness for C6: the same direct requirements {A/1.0, M/1.0} (in two
orders) with indirect B/2.0 produce the same package identity. -/
theorem C6_witness :
    ∃ c1 c2 : ConanInfo,
      ConanInfo.create ⟨["os=Linux"]⟩ ⟨["shared=False"], []⟩ [refA10, refM10] [refB20]
          none = some c1 ∧
      ConanInfo.create ⟨["os=Linux"]⟩ ⟨["shared=False"], []⟩ [refM10, refA10] [refB20]
          none = some c2 ∧
      ∃ (h : Hash) (c1' c2' : ConanInfo),
        c1.package_id = .ok (h, c1') ∧ c2.package_id = .ok (h, c2') := by
  rcases hc1 : ConanInfo.create ⟨["os=Linux"]⟩ ⟨["shared=False"], []⟩ [refA10, refM10]
      [refB20] none with - | c1
  · have : (ConanInfo.create ⟨["os=Linux"]⟩ ⟨["shared=False"], []⟩ [refA10, refM10]
        [refB20] none).isSome = true := by decide
    rw [hc1] at this
    simp at this
  · rcases hc2 : ConanInfo.create ⟨["os=Linux"]⟩ ⟨["shared=False"], []⟩ [refM10, refA10]
        [refB20] none with - | c2
    · have : (ConanInfo.create ⟨["os=Linux"]⟩ ⟨["shared=False"], []⟩ [refM10, refA10]
          [refB20] none).isSome = true := by decide
      rw [hc2] at this
      simp at this
    · exact ⟨c1, c2, rfl, rfl,
        C6_insertion_order_determinism ⟨["os=Linux"]⟩ ⟨["shared=False"], []⟩
          [refA10, refM10] [refM10, refA10] [refB20] [refB20] none c1 c2
          (by decide) (by decide) (by decide) (by decide) hc1 hc2⟩

/-! ## String-stream lemmas for the canonical-text round-trip (claim C2) -/

/-- The character-level form of the newline join. -/
def chJoinNl : List (List Char) → List Char
  | [] => []
  | [l] => l
  | l :: ls => l ++ '\n' :: chJoinNl ls

theorem chJoinNl_cons₂ (l l' : List Char) (ls : List (List Char)) :
    chJoinNl (l :: l' :: ls) = l ++ '\n' :: chJoinNl (l' :: ls) := rfl

theorem pyJoin_data : ∀ ls : List String,
    (pyJoin "\n" ls).data = chJoinNl (ls.map String.data) := by
  intro ls
  match ls with
  | [] => rfl
  | [s] => rfl
  | s :: s' :: ss =>
    rw [pyJoin_cons₂, List.map_cons, List.map_cons, chJoinNl_cons₂, ← List.map_cons,
      String.data_append, String.data_append, ← pyJoin_data (s' :: ss)]
    simp

/-- Splitting a newline join of pieces concatenates the splits of the pieces. -/
theorem chSplitOn_chJoinNl : ∀ (p : List Char) (ps : List (List Char)),
    chSplitOn '\n' (chJoinNl (p :: ps)) =
      ((p :: ps).map (chSplitOn '\n')).flatten := by
  intro p ps
  induction ps generalizing p with
  | nil => simp [chJoinNl]
  | cons q ps ih =>
    rw [chJoinNl_cons₂, chSplitOn_append, ih q]
    simp

/-- Splitting a newline join of newline-free lines recovers the lines. -/
theorem chSplitOn_chJoinNl_lines : ∀ (p : List Char) (ps : List (List Char)),
    ('\n') ∉ p → (∀ x ∈ ps, ('\n') ∉ x) →
    chSplitOn '\n' (chJoinNl (p :: ps)) = p :: ps := by
  intro p ps
  induction ps generalizing p with
  | nil =>
    intro hp _
    exact chSplitOn_sepFree '\n' p hp
  | cons q ps ih =>
    intro hp hps
    rw [chJoinNl_cons₂, chSplitOn_append, chSplitOn_sepFree '\n' p hp,
      ih q (hps q (List.mem_cons_self q ps))
        (fun x hx => hps x (List.mem_cons_of_mem q hx))]
    rfl

/-- Newline-joining nonempty newline-free lines and splitting again is the
identity (this is how every section body survives the round-trip). -/
theorem pySplitlines_pyJoin (ls : List String)
    (h : ∀ l ∈ ls, l.data ≠ [] ∧ ('\n') ∉ l.data) :
    pySplitlines (pyJoin "\n" ls) = ls := by
  rcases ls with - | ⟨l, ls⟩
  · rfl
  · rw [pySplitlines, pyJoin_data]
    have hsplit : chSplitOn '\n' (chJoinNl ((l :: ls).map String.data)) =
        (l :: ls).map String.data := by
      rw [List.map_cons]
      refine chSplitOn_chJoinNl_lines l.data (ls.map String.data) (h l (by simp)).2 ?_
      intro x hx
      rcases List.mem_map.mp hx with ⟨y, hy, rfl⟩
      exact (h y (List.mem_cons_of_mem l hy)).2
    have hne : chJoinNl ((l :: ls).map String.data) ≠ [] := by
      intro hc
      have : ([] : List Char) ∈ (l :: ls).map String.data := by
        rw [← hsplit, hc]
        simp [chSplitOn]
      rcases List.mem_map.mp this with ⟨y, hy, hy0⟩
      exact (h y hy).1 hy0
    have hlast : ¬ (chJoinNl ((l :: ls).map String.data)).getLast? = some '\n' := by
      intro hc
      have hdecomp : chJoinNl ((l :: ls).map String.data) =
          (chJoinNl ((l :: ls).map String.data)).dropLast ++ ['\n'] := by
        conv_lhs => rw [← List.dropLast_append_getLast hne]
        rw [List.getLast?_eq_getLast _ hne] at hc
        injection hc with hc
        rw [hc]
      have hs2 : chSplitOn '\n' (chJoinNl ((l :: ls).map String.data)) =
          chSplitOn '\n' (chJoinNl ((l :: ls).map String.data)).dropLast ++ [[]] := by
        conv_lhs => rw [hdecomp]
        rw [show ((chJoinNl ((l :: ls).map String.data)).dropLast ++ ['\n']) =
          ((chJoinNl ((l :: ls).map String.data)).dropLast ++ '\n' :: []) from rfl]
        rw [chSplitOn_append]
        rfl
      rw [hsplit] at hs2
      have hmem0 : ([] : List Char) ∈ (l :: ls).map String.data := by
        rw [hs2]
        simp
      rcases List.mem_map.mp hmem0 with ⟨y, hy, hy0⟩
      exact (h y hy).1 hy0
    rw [if_neg hne, if_neg hlast, hsplit, List.map_map]
    have : (String.mk ∘ String.data) = id := funext (fun s => rfl)
    rw [this, List.map_id]

/-- Well-formedness of a config body line: nonempty, no surrounding
whitespace, no newline, and not starting with a bracket — such a line
survives stripping and is never mistaken for a section header. -/
def lineOk (s : String) : Bool :=
  !(s.data = []) && !(isPySpace s.data.headI) && !(isPySpace s.data.reverse.headI) &&
    !(s.data.headI = '[') && !(decide (('\n') ∈ s.data))

theorem lineOk_facts {s : String} (h : lineOk s = true) :
    s.data ≠ [] ∧ isPySpace s.data.headI = false ∧
      isPySpace s.data.reverse.headI = false ∧ ¬ s.data.headI = '[' ∧
      ('\n') ∉ s.data := by
  rw [lineOk] at h
  simp only [Bool.and_eq_true, Bool.not_eq_true', decide_eq_false_iff_not,
    Bool.not_eq_true] at h
  refine ⟨?_, ?_, ?_, ?_, ?_⟩
  · intro hc
    exact absurd hc h.1.1.1.1
  · exact h.1.1.1.2
  · exact h.1.1.2
  · exact h.1.2
  · intro hc
    exact h.2 hc

theorem dropWhile_eq_self_head {cs : List Char} (hne : cs ≠ [])
    (hh : isPySpace cs.headI = false) : cs.dropWhile isPySpace = cs := by
  cases cs with
  | nil => exact absurd rfl hne
  | cons a t =>
    rw [List.dropWhile_cons, if_neg]
    rw [List.headI] at hh
    simp [hh]

theorem pyStrip_of_lineOk {l : String} (hl : lineOk l = true) : pyStrip l = l := by
  obtain ⟨hne, hh, hrev, -, -⟩ := lineOk_facts hl
  rw [pyStrip, dropWhile_eq_self_head hne hh,
    dropWhile_eq_self_head (by simp [hne]) hrev, List.reverse_reverse]

theorem pyStrip_indent {l : String} (hl : lineOk l = true) :
    pyStrip ("    " ++ l) = l := by
  obtain ⟨hne, hh, hrev, -, -⟩ := lineOk_facts hl
  rw [pyStrip, String.data_append]
  rw [show ("    " : String).data ++ l.data = ' ' :: (' ' :: (' ' :: (' ' :: l.data)))
    from by rfl]
  rw [List.dropWhile_cons, if_pos (by decide), List.dropWhile_cons, if_pos (by decide),
    List.dropWhile_cons, if_pos (by decide), List.dropWhile_cons, if_pos (by decide)]
  rw [dropWhile_eq_self_head hne hh, dropWhile_eq_self_head (by simp [hne]) hrev,
    List.reverse_reverse]

theorem cpFold_cons (allowed : List String) (line : String) (rest : List String)
    (acc : List (String × List String)) :
    cpFold allowed (line :: rest) acc =
      if pyStrip line = "" then cpFold allowed rest acc
      else if (pyStrip line).data.head? = some '[' then
        (headerOf (pyStrip line)).bind (fun name =>
          if allowed.contains name then cpFold allowed rest (acc ++ [(name, [])])
          else none)
      else (appendToLast acc (pyStrip line)).bind (cpFold allowed rest) := rfl

/-- The parse depends only on the non-blank lines of the stream. -/
theorem cpFold_filter_blank (allowed : List String) :
    ∀ (L : List String) (acc : List (String × List String)),
      cpFold allowed L acc =
        cpFold allowed (L.filter (fun l => !(pyStrip l = ""))) acc := by
  intro L
  induction L with
  | nil =>
    intro acc
    rfl
  | cons line L ih =>
    intro acc
    by_cases hb : pyStrip line = ""
    · rw [List.filter_cons_of_neg (by simp [hb]), cpFold_cons, if_pos hb]
      exact ih acc
    · rw [List.filter_cons_of_pos (by simp [hb]), cpFold_cons, cpFold_cons, if_neg hb,
        if_neg hb]
      by_cases hh : (pyStrip line).data.head? = some '['
      · rw [if_pos hh, if_pos hh]
        rcases headerOf (pyStrip line) with - | name
        · rfl
        · rw [Option.some_bind, Option.some_bind]
          by_cases ha : allowed.contains name
          · rw [if_pos ha, if_pos ha, ih]
          · rw [if_neg ha, if_neg ha]
      · rw [if_neg hh, if_neg hh]
        rcases appendToLast acc (pyStrip line) with - | acc'
        · rfl
        · rw [Option.some_bind, Option.some_bind, ih]

/-- Up to blank lines, Python's `splitlines` is the plain newline split. -/
theorem pySplitlines_filter_blank (s : String) :
    (pySplitlines s).filter (fun l => !(pyStrip l = "")) =
      ((chSplitOn '\n' s.data).map String.mk).filter (fun l => !(pyStrip l = "")) := by
  rw [pySplitlines]
  by_cases h0 : s.data = []
  · rw [if_pos h0, h0]
    rfl
  · rw [if_neg h0]
    by_cases hl : s.data.getLast? = some '\n'
    · rw [if_pos hl]
      have hdecomp : s.data = s.data.dropLast ++ ['\n'] := by
        conv_lhs => rw [← List.dropLast_append_getLast h0]
        rw [List.getLast?_eq_getLast _ h0] at hl
        injection hl with hl
        rw [hl]
      conv_rhs => rw [hdecomp]
      rw [show s.data.dropLast ++ ['\n'] = s.data.dropLast ++ '\n' :: [] from rfl,
        chSplitOn_append]
      rw [List.map_append, List.filter_append]
      rw [show ((chSplitOn '\n' []).map String.mk).filter
        (fun l => !(pyStrip l = "")) = [] from rfl]
      rw [List.append_nil]
    · rw [if_neg hl]

/-- The whole parser run, normalised to the plain blank-free line split. -/
theorem ConfigParser.run_norm (text : String) (allowed : List String) :
    ConfigParser.run text allowed =
      cpFold allowed
        (((chSplitOn '\n' text.data).map String.mk).filter (fun l => !(pyStrip l = "")))
        [] := by
  rw [ConfigParser.run, cpFold_filter_blank, pySplitlines_filter_blank,
    ← cpFold_filter_blank]

/-- Append body lines to the most recently opened section. -/
def pushLast (secs : List (String × List String)) (ls : List String) :
    List (String × List String) :=
  match secs with
  | [] => []
  | [(n, body)] => [(n, body ++ ls)]
  | sec :: rest => sec :: pushLast rest ls

theorem pushLast_nil_right (secs : List (String × List String)) :
    pushLast secs [] = secs := by
  induction secs with
  | nil => rfl
  | cons sec rest ih =>
    rcases sec with ⟨n, body⟩
    rcases rest with - | ⟨sec', rest⟩
    · simp [pushLast]
    · rw [show pushLast ((n, body) :: sec' :: rest) [] =
        (n, body) :: pushLast (sec' :: rest) [] from rfl, ih]

theorem pushLast_ne_nil (secs : List (String × List String)) (ls : List String)
    (h : secs ≠ []) : pushLast secs ls ≠ [] := by
  rcases secs with - | ⟨⟨n, body⟩, rest⟩
  · exact absurd rfl h
  · rcases rest with - | ⟨sec', rest⟩
    · simp [pushLast]
    · rw [show pushLast ((n, body) :: sec' :: rest) ls =
        (n, body) :: pushLast (sec' :: rest) ls from rfl]
      simp

theorem pushLast_pushLast (secs : List (String × List String)) (l : String)
    (ls : List String) : pushLast (pushLast secs [l]) ls = pushLast secs (l :: ls) := by
  induction secs with
  | nil => rfl
  | cons sec rest ih =>
    rcases sec with ⟨n, body⟩
    rcases rest with - | ⟨sec', rest⟩
    · simp [pushLast]
    · rw [show pushLast ((n, body) :: sec' :: rest) [l] =
        (n, body) :: pushLast (sec' :: rest) [l] from rfl]
      rw [show pushLast ((n, body) :: sec' :: rest) (l :: ls) =
        (n, body) :: pushLast (sec' :: rest) (l :: ls) from rfl]
      have hne : pushLast (sec' :: rest) [l] ≠ [] := pushLast_ne_nil _ _ (by simp)
      rcases hp : pushLast (sec' :: rest) [l] with - | ⟨q, qs⟩
      · exact absurd hp hne
      · rw [show pushLast ((n, body) :: q :: qs) ls = (n, body) :: pushLast (q :: qs) ls
          from rfl, ← hp, ih]

theorem appendToLast_eq (secs : List (String × List String)) (l : String)
    (h : secs ≠ []) : appendToLast secs l = some (pushLast secs [l]) := by
  induction secs with
  | nil => exact absurd rfl h
  | cons sec rest ih =>
    rcases sec with ⟨n, body⟩
    rcases rest with - | ⟨sec', rest⟩
    · rfl
    · rw [show appendToLast ((n, body) :: sec' :: rest) l =
        (appendToLast (sec' :: rest) l).map (fun r => (n, body) :: r) from rfl]
      rw [ih (by simp)]
      rfl

/-- Consuming an indented body: each line is stripped back to itself and
appended to the last opened section. -/
theorem cpFold_body (allowed : List String) (ls : List String)
    (hls : ∀ l ∈ ls, lineOk l = true) :
    ∀ (rest : List String) (acc : List (String × List String)), acc ≠ [] →
      cpFold allowed (ls.map (fun l => "    " ++ l) ++ rest) acc =
        cpFold allowed rest (pushLast acc ls) := by
  induction ls with
  | nil =>
    intro rest acc hacc
    rw [List.map_nil, List.nil_append, pushLast_nil_right]
  | cons l ls ih =>
    intro rest acc hacc
    obtain ⟨hne, hh, -, hbr, -⟩ := lineOk_facts (hls l (List.mem_cons_self l ls))
    have hstrip := pyStrip_indent (hls l (List.mem_cons_self l ls))
    rw [List.map_cons, List.cons_append, cpFold_cons, hstrip]
    rw [if_neg (fun hc => hne (congrArg String.data hc)), if_neg ?hbracket]
    case hbracket =>
      intro hc
      rcases hd : l.data with - | ⟨a, t⟩
      · exact hne hd
      · rw [hd] at hc
        injection hc with hc
        rw [hd, List.headI] at hbr
        exact hbr hc
    rw [appendToLast_eq acc l hacc, Option.some_bind,
      ih (fun x hx => hls x (List.mem_cons_of_mem l hx)) rest _
        (pushLast_ne_nil acc [l] hacc), pushLast_pushLast]

/-- Consuming a section header line. -/
theorem cpFold_header (allowed : List String) (line name : String)
    (rest : List String) (acc : List (String × List String))
    (hstrip : pyStrip line = line) (hne : ¬ line = "")
    (hh : line.data.head? = some '[') (hname : headerOf line = some name)
    (ha : allowed.contains name = true) :
    cpFold allowed (line :: rest) acc =
      cpFold allowed rest (acc ++ [(name, [])]) := by
  rw [cpFold_cons, hstrip, if_neg hne, if_pos hh, hname, Option.some_bind, if_pos ha]

theorem refField_chars {s : String} (hs : refField s = true) {c : Char}
    (hc : c ∈ s.data) : refFieldChar c = true := by
  rcases Bool.and_eq_true_iff.mp hs with ⟨-, hall⟩
  exact List.all_eq_true.mp hall c hc

theorem refField_ne_empty {s : String} (h : refField s = true) : ¬ s = "" :=
  fun hc => (refField_ne_nil h) (congrArg String.data hc)

theorem wf_name_field {r : PackageReference} (h : r.wf = true) :
    refField r.name = true := by
  rw [PackageReference.wf] at h
  simp only [Bool.and_eq_true] at h
  exact h.1.1.1

theorem wf_version_field {r : PackageReference} (h : r.wf = true) :
    refField r.version = true := by
  rw [PackageReference.wf] at h
  simp only [Bool.and_eq_true] at h
  exact h.1.1.2

theorem class_char_props {c : Char}
    (h : c = '/' ∨ c = '@' ∨ c = ':' ∨ refFieldChar c = true) :
    isPySpace c = false ∧ ¬ c = '[' ∧ ¬ c = '\n' := by
  rcases h with rfl | rfl | rfl | h
  · exact ⟨by decide, by decide, by decide⟩
  · exact ⟨by decide, by decide, by decide⟩
  · exact ⟨by decide, by decide, by decide⟩
  · rw [refFieldChar, Bool.not_eq_true'] at h
    simp only [Bool.or_eq_false_iff, decide_eq_false_iff_not] at h
    refine ⟨h.2, h.1.1.2, ?_⟩
    intro hc
    have hsp := h.2
    rw [hc] at hsp
    exact absurd hsp (by decide)

theorem str_char_props {r : PackageReference} (h : r.wf = true) :
    ∀ c ∈ r.str.data, isPySpace c = false ∧ ¬ c = '[' ∧ ¬ c = '\n' := by
  have hn := wf_name_field h
  have hv := wf_version_field h
  obtain ⟨n, v, uc, pid⟩ := r
  intro c hc
  refine class_char_props ?_
  rcases uc with - | ⟨u, ch⟩ <;> rcases pid with - | p <;>
    simp only [PackageReference.wf, Bool.and_eq_true] at h <;>
    simp only [PackageReference.str, String.data_append, emptyStr_data, slash_data,
      atSign_data, colon_data, List.append_nil, List.append_assoc, List.cons_append,
      List.nil_append, List.singleton_append, List.mem_append, List.mem_cons] at hc
  · rcases hc with hc | hc | hc
    · exact Or.inr (Or.inr (Or.inr (refField_chars hn hc)))
    · exact Or.inl hc
    · exact Or.inr (Or.inr (Or.inr (refField_chars hv hc)))
  · have hp : refField p = true := h.2
    rcases hc with hc | hc | hc | hc | hc
    · exact Or.inr (Or.inr (Or.inr (refField_chars hn hc)))
    · exact Or.inl hc
    · exact Or.inr (Or.inr (Or.inr (refField_chars hv hc)))
    · exact Or.inr (Or.inr (Or.inl hc))
    · exact Or.inr (Or.inr (Or.inr (refField_chars hp hc)))
  · have hu : refField u = true := h.1.2.1
    have hch : refField ch = true := h.1.2.2
    rcases hc with hc | hc | hc | hc | hc | hc | hc
    · exact Or.inr (Or.inr (Or.inr (refField_chars hn hc)))
    · exact Or.inl hc
    · exact Or.inr (Or.inr (Or.inr (refField_chars hv hc)))
    · exact Or.inr (Or.inl hc)
    · exact Or.inr (Or.inr (Or.inr (refField_chars hu hc)))
    · exact Or.inl hc
    · exact Or.inr (Or.inr (Or.inr (refField_chars hch hc)))
  · have hu : refField u = true := h.1.2.1
    have hch : refField ch = true := h.1.2.2
    have hp : refField p = true := h.2
    rcases hc with hc | hc | hc | hc | hc | hc | hc | hc | hc
    · exact Or.inr (Or.inr (Or.inr (refField_chars hn hc)))
    · exact Or.inl hc
    · exact Or.inr (Or.inr (Or.inr (refField_chars hv hc)))
    · exact Or.inr (Or.inl hc)
    · exact Or.inr (Or.inr (Or.inr (refField_chars hu hc)))
    · exact Or.inl hc
    · exact Or.inr (Or.inr (Or.inr (refField_chars hch hc)))
    · exact Or.inr (Or.inr (Or.inl hc))
    · exact Or.inr (Or.inr (Or.inr (refField_chars hp hc)))

theorem headI_mem_of_ne_nil {l : List Char} (h : l ≠ []) : l.headI ∈ l := by
  cases l with
  | nil => exact absurd rfl h
  | cons a t => exact List.mem_cons_self a t

theorem lineOk_of_char_props {s : String} (hne : s.data ≠ [])
    (hp : ∀ c ∈ s.data, isPySpace c = false ∧ ¬ c = '[' ∧ ¬ c = '\n') :
    lineOk s = true := by
  have hhead := hp s.data.headI (headI_mem_of_ne_nil hne)
  have hrevne : s.data.reverse ≠ [] := by simp [hne]
  have hrev := hp s.data.reverse.headI
    (List.mem_reverse.mp (headI_mem_of_ne_nil hrevne))
  rw [lineOk]
  simp only [Bool.and_eq_true, Bool.not_eq_true', decide_eq_false_iff_not]
  refine ⟨⟨⟨⟨?_, ?_⟩, ?_⟩, ?_⟩, ?_⟩
  · simp [hne]
  · exact hhead.1
  · exact hrev.1
  · simp [hhead.2.1]
  · intro hc
    exact (hp '\n' hc).2.2 rfl

theorem str_data_ne_nil {r : PackageReference} (h : r.wf = true) : r.str.data ≠ [] := by
  have hn := wf_name_field h
  obtain ⟨n, v, uc, pid⟩ := r
  rcases uc with - | ⟨u, ch⟩ <;> rcases pid with - | p <;>
    simp only [PackageReference.str, String.data_append, emptyStr_data, slash_data,
      atSign_data, colon_data, List.append_nil, List.append_assoc, List.cons_append,
      List.nil_append, List.singleton_append] <;>
    intro hc <;>
    rcases List.append_eq_nil.mp hc with ⟨h1, -⟩ <;>
    exact refField_ne_nil hn h1

theorem lineOk_str {r : PackageReference} (h : r.wf = true) : lineOk r.str = true :=
  lineOk_of_char_props (str_data_ne_nil h) (str_char_props h)

theorem recordLine_char_props {n v : String} (hn : refField n = true)
    (hv : refField v = true) :
    ∀ c ∈ (n ++ "/" ++ v).data, isPySpace c = false ∧ ¬ c = '[' ∧ ¬ c = '\n' := by
  intro c hc
  refine class_char_props ?_
  simp only [String.data_append, slash_data, List.append_assoc, List.singleton_append,
    List.mem_append, List.mem_cons] at hc
  rcases hc with hc | hc | hc
  · exact Or.inr (Or.inr (Or.inr (refField_chars hn hc)))
  · exact Or.inl hc
  · exact Or.inr (Or.inr (Or.inr (refField_chars hv hc)))

theorem lineOk_recordLine {n v : String} (hn : refField n = true)
    (hv : refField v = true) : lineOk (n ++ "/" ++ v) = true := by
  refine lineOk_of_char_props ?_ (recordLine_char_props hn hv)
  simp only [String.data_append, slash_data, List.append_assoc, List.singleton_append]
  intro hc
  rcases List.append_eq_nil.mp hc with ⟨h1, -⟩
  exact refField_ne_nil hn h1

/-- The record dump line of a direct well-formed requirement. -/
theorem dumps_ofRef_direct {r : PackageReference} (h : r.wf = true) :
    (RequirementInfo.ofRef r false).dumps = r.name ++ "/" ++ r.version := by
  have hv : Version.stable r.version = r.version :=
    Version.stable_of_wf (wf_version_field h)
  rw [RequirementInfo.dumps]
  rw [show (RequirementInfo.ofRef r false).name = some r.name from rfl,
    show (RequirementInfo.ofRef r false).version = some (Version.stable r.version)
      from rfl,
    show (RequirementInfo.ofRef r false).user = none from rfl,
    show (RequirementInfo.ofRef r false).channel = none from rfl,
    show (RequirementInfo.ofRef r false).package_id = none from rfl, hv]
  rw [show [some r.name, some r.version, none, none,
      (none : Option String)].filter truthyStr = [some r.name, some r.version] from by
    simp [truthyStr, refField_ne_empty (wf_name_field h),
      refField_ne_empty (wf_version_field h)]]
  rw [List.map_cons, List.map_cons, List.map_nil]
  rw [show pyStrOpt (some r.name) = r.name from rfl,
    show pyStrOpt (some r.version) = r.version from rfl, pyJoin_cons₂, pyJoin_single]

/-- The line list inside `RequirementsInfo.dumps`. -/
def RequirementsInfo.dumpsLines (ri : RequirementsInfo) : List String :=
  (sortRefs (ri.data.map Prod.fst)).filterMap
    (fun ref =>
      (ri.data.lookup ref).bind
        (fun info =>
          let dumped := info.dumps
          if dumped = "" then none
          else
            let dev := match ri.non_devs_requirements with
              | none => false
              | some nd => !nd.contains ref.name
            some (if dev then dumped ++ " DEV" else dumped)))

theorem RequirementsInfo.dumps_eq (ri : RequirementsInfo) :
    ri.dumps = pyJoin "\n" ri.dumpsLines := rfl

/-- The non-blank parsed lines contributed by one dump piece. -/
def streamOf (piece : String) : List String :=
  ((chSplitOn '\n' piece.data).map String.mk).filter (fun l => !(pyStrip l = ""))

/-- The non-blank line stream of a newline join is the concatenation of the
streams of the pieces. -/
theorem stream_flatten : ∀ (p : String) (ps : List String),
    ((chSplitOn '\n' (pyJoin "\n" (p :: ps)).data).map String.mk).filter
        (fun l => !(pyStrip l = "")) =
      ((p :: ps).map streamOf).flatten := by
  intro p ps
  induction ps generalizing p with
  | nil =>
    rw [pyJoin_single]
    simp [streamOf]
  | cons q ps ih =>
    rw [pyJoin_cons₂, String.data_append, String.data_append]
    rw [show ("\n" : String).data = ['\n'] from rfl]
    rw [show p.data ++ ['\n'] ++ (pyJoin "\n" (q :: ps)).data =
      p.data ++ '\n' :: (pyJoin "\n" (q :: ps)).data from by simp]
    rw [chSplitOn_append, List.map_append, List.filter_append, ih q]
    rw [List.map_cons, List.flatten_cons]
    rfl

/-- Indenting well-formed body lines distributes over the join. -/
theorem indentText_of (ls : List String) (h : ∀ l ∈ ls, lineOk l = true) :
    indentText (pyJoin "\n" ls) = pyJoin "\n" (ls.map (fun l => "    " ++ l)) := by
  rw [indentText, pySplitlines_pyJoin ls (fun l hl =>
    ⟨(lineOk_facts (h l hl)).1, (lineOk_facts (h l hl)).2.2.2.2⟩)]

/-- The stream of an indented well-formed body is its indented lines. -/
theorem streamOf_body (ls : List String) (h : ∀ l ∈ ls, lineOk l = true) :
    streamOf (pyJoin "\n" (ls.map (fun l => "    " ++ l))) =
      ls.map (fun l => "    " ++ l) := by
  rcases ls with - | ⟨l, ls⟩
  · rfl
  · rw [streamOf, pyJoin_data, List.map_cons, List.map_cons]
    have hnl : ∀ x ∈ (l :: ls), ('\n') ∉ ("    " ++ x).data := by
      intro x hx hc
      rw [String.data_append] at hc
      rcases List.mem_append.mp hc with hc | hc
      · exact absurd hc (by decide)
      · exact (lineOk_facts (h x hx)).2.2.2.2 hc
    rw [chSplitOn_chJoinNl_lines ("    " ++ l).data
      ((ls.map (fun x => "    " ++ x)).map String.data)
      (hnl l (List.mem_cons_self l ls)) ?tail]
    case tail =>
      intro x hx
      rcases List.mem_map.mp hx with ⟨y, hy, rfl⟩
      rcases List.mem_map.mp hy with ⟨z, hz, rfl⟩
      exact hnl z (List.mem_cons_of_mem l hz)
    rw [List.map_cons, List.map_map]
    rw [show String.mk ("    " ++ l).data = "    " ++ l from rfl]
    rw [show (String.mk ∘ String.data) = id from funext (fun s => rfl), List.map_id]
    refine List.filter_eq_self.mpr ?_
    intro a ha
    have hform : ∃ y, y ∈ l :: ls ∧ a = "    " ++ y := by
      rcases List.mem_cons.mp ha with h1 | h1
      · exact ⟨l, List.mem_cons_self l ls, h1⟩
      · rcases List.mem_map.mp h1 with ⟨y, hy, rfl⟩
        exact ⟨y, List.mem_cons_of_mem l hy, rfl⟩
    rcases hform with ⟨y, hy, rfl⟩
    rw [pyStrip_indent (h y hy)]
    have hne := (lineOk_facts (h y hy)).1
    simp only [Bool.not_eq_true', decide_eq_false_iff_not]
    intro hc
    exact hne (congrArg String.data hc)

/-- Appending body lines to the last of a one-past-the-end section list. -/
theorem pushLast_append_single (prev : List (String × List String)) (n : String)
    (body ls : List String) :
    pushLast (prev ++ [(n, body)]) ls = prev ++ [(n, body ++ ls)] := by
  induction prev with
  | nil => rfl
  | cons p prev ih =>
    rcases hp : prev ++ [(n, body)] with - | ⟨q, qs⟩
    · exact absurd hp (by simp)
    · rw [List.cons_append, hp,
        show pushLast (p :: q :: qs) ls = p :: pushLast (q :: qs) ls from rfl, ← hp, ih]
      rfl

/-- Printing well-formed references line by line and re-parsing recovers
them. -/
theorem mapM_loads_str (l : List PackageReference) (h : ∀ r ∈ l, r.wf = true) :
    (l.map PackageReference.str).mapM PackageReference.loads = some l := by
  induction l with
  | nil => rfl
  | cons r l ih =>
    rw [List.map_cons, List.mapM_cons,
      PackageReference.loads_str (h r (List.mem_cons_self r l)),
      ih (fun x hx => h x (List.mem_cons_of_mem r hx))]
    rfl

/-- With no filter and purely direct well-formed records, the dump lines are
the sorted `name/version` record lines. -/
theorem dumpsLines_direct (d : List (PackageReference × RequirementInfo))
    (hlook : ∀ k ∈ d.map Prod.fst, d.lookup k = some (RequirementInfo.ofRef k false))
    (hwfk : ∀ k ∈ d.map Prod.fst, k.wf = true) :
    RequirementsInfo.dumpsLines ⟨none, d⟩ =
      (sortRefs (d.map Prod.fst)).map (fun k => k.name ++ "/" ++ k.version) := by
  rw [RequirementsInfo.dumpsLines]
  have hstep : ∀ k ∈ sortRefs (d.map Prod.fst),
      (d.lookup k).bind
        (fun info =>
          let dumped := info.dumps
          if dumped = "" then none
          else
            let dev := match (none : Option (List String)) with
              | none => false
              | some nd => !nd.contains k.name
            some (if dev then dumped ++ " DEV" else dumped)) =
        some (k.name ++ "/" ++ k.version) := by
    intro k hk
    have hk' : k ∈ d.map Prod.fst := mem_sortRefs.mp hk
    rw [hlook k hk', Option.some_bind, dumps_ofRef_direct (hwfk k hk')]
    have hnee : ¬ (k.name ++ "/" ++ k.version) = "" := by
      intro hc
      have hd := congrArg String.data hc
      rw [show ("" : String).data = [] from rfl] at hd
      exact lineOk_facts (lineOk_recordLine (wf_name_field (hwfk k hk'))
        (wf_version_field (hwfk k hk'))) |>.1 hd
    rw [if_neg hnee]
    rfl
  refine (List.filterMap_congr hstep).trans ?_
  generalize sortRefs (d.map Prod.fst) = ks
  induction ks with
  | nil => rfl
  | cons a t ih =>
    rw [show List.filterMap
        (fun k : PackageReference => some (k.name ++ "/" ++ k.version)) (a :: t) =
      (a.name ++ "/" ++ a.version) :: List.filterMap
        (fun k : PackageReference => some (k.name ++ "/" ++ k.version)) t from rfl,
      ih, List.map_cons]

/-- Appending body lines to a freshly opened last section. -/
theorem pushLast_last_empty (prev : List (String × List String)) (n : String)
    (ls : List String) :
    pushLast (prev ++ [(n, [])]) ls = prev ++ [(n, ls)] := by
  rw [pushLast_append_single, List.nil_append]

/-- Consuming one whole section: a header line followed by its indented
body. -/
theorem cpFold_section (allowed : List String) (hdr name : String) (b : List String)
    (rest : List String) (acc : List (String × List String))
    (hstrip : pyStrip hdr = hdr) (hne : ¬ hdr = "") (hh : hdr.data.head? = some '[')
    (hname : headerOf hdr = some name) (ha : allowed.contains name = true)
    (hb : ∀ l ∈ b, lineOk l = true) :
    cpFold allowed (hdr :: (b.map (fun l => "    " ++ l) ++ rest)) acc =
      cpFold allowed rest (acc ++ [(name, b)]) := by
  rw [cpFold_header allowed hdr name _ acc hstrip hne hh hname ha,
    cpFold_body allowed b hb rest _ (by simp), pushLast_last_empty]

/-- The parsed sections of a canonical dump. -/
def sectionsOf (b1 b2 b3 b4 b5 b6 : List String) : List (String × List String) :=
  [("settings", b1), ("requires", b2), ("options", b3), ("full_settings", b4),
   ("full_requires", b5), ("full_options", b6), ("scope", [])]

/-- Parsing the canonical dump layout recovers the six section bodies. -/
theorem run_pieces (b1 b2 b3 b4 b5 b6 : List String)
    (h1 : ∀ l ∈ b1, lineOk l = true) (h2 : ∀ l ∈ b2, lineOk l = true)
    (h3 : ∀ l ∈ b3, lineOk l = true) (h4 : ∀ l ∈ b4, lineOk l = true)
    (h5 : ∀ l ∈ b5, lineOk l = true) (h6 : ∀ l ∈ b6, lineOk l = true) :
    ConfigParser.run (pyJoin "\n"
      ["[settings]", pyJoin "\n" (b1.map (fun l => "    " ++ l)),
       "\n[requires]", pyJoin "\n" (b2.map (fun l => "    " ++ l)),
       "\n[options]", pyJoin "\n" (b3.map (fun l => "    " ++ l)),
       "\n[full_settings]", pyJoin "\n" (b4.map (fun l => "    " ++ l)),
       "\n[full_requires]", pyJoin "\n" (b5.map (fun l => "    " ++ l)),
       "\n[full_options]", pyJoin "\n" (b6.map (fun l => "    " ++ l)),
       "\n[scope]"]) allowedFields =
      some (sectionsOf b1 b2 b3 b4 b5 b6) := by
  rw [ConfigParser.run_norm, stream_flatten]
  simp only [List.map_cons, List.map_nil, List.flatten_cons, List.flatten_nil,
    List.append_nil]
  rw [show streamOf "[settings]" = ["[settings]"] from rfl,
    show streamOf "\n[requires]" = ["[requires]"] from rfl,
    show streamOf "\n[options]" = ["[options]"] from rfl,
    show streamOf "\n[full_settings]" = ["[full_settings]"] from rfl,
    show streamOf "\n[full_requires]" = ["[full_requires]"] from rfl,
    show streamOf "\n[full_options]" = ["[full_options]"] from rfl,
    show streamOf "\n[scope]" = ["[scope]"] from rfl,
    streamOf_body b1 h1, streamOf_body b2 h2, streamOf_body b3 h3,
    streamOf_body b4 h4, streamOf_body b5 h5, streamOf_body b6 h6]
  simp only [List.singleton_append]
  rw [cpFold_section allowedFields "[settings]" "settings" b1 _ [] rfl (by decide)
      rfl rfl (by decide) h1,
    cpFold_section allowedFields "[requires]" "requires" b2 _ _ rfl (by decide)
      rfl rfl (by decide) h2,
    cpFold_section allowedFields "[options]" "options" b3 _ _ rfl (by decide)
      rfl rfl (by decide) h3,
    cpFold_section allowedFields "[full_settings]" "full_settings" b4 _ _ rfl
      (by decide) rfl rfl (by decide) h4,
    cpFold_section allowedFields "[full_requires]" "full_requires" b5 _ _ rfl
      (by decide) rfl rfl (by decide) h5,
    cpFold_section allowedFields "[full_options]" "full_options" b6 _ _ rfl
      (by decide) rfl rfl (by decide) h6,
    cpFold_header allowedFields "[scope]" "scope" [] _ rfl (by decide) rfl rfl
      (by decide)]
  exact congrArg some (by simp [sectionsOf])

theorem insFold_keys_mem_nil (reqs : List PackageReference) (k : PackageReference) :
    k ∈ (insFold reqs false []).map Prod.fst ↔ k ∈ reqs := by
  rw [insFold_keys_mem]
  simp

/-- The sorted record lines of the requirement section built from direct
requirements. -/
def reqLinesOf (reqs : List PackageReference) : List String :=
  (sortRefs ((insFold reqs false []).map Prod.fst)).map
    (fun k => k.name ++ "/" ++ k.version)

theorem dumpsLines_insFold (reqs : List PackageReference)
    (hwf : ∀ r ∈ reqs, r.wf = true) :
    RequirementsInfo.dumpsLines ⟨none, insFold reqs false []⟩ = reqLinesOf reqs := by
  rw [reqLinesOf]
  refine dumpsLines_direct _ ?_ ?_
  · intro k hk
    rw [insFold_lookup, if_pos ((insFold_keys_mem_nil reqs k).mp hk)]
  · intro k hk
    exact hwf k ((insFold_keys_mem_nil reqs k).mp hk)

theorem dumpsLines_insFold_sorted (reqs : List PackageReference)
    (hwf : ∀ r ∈ reqs, r.wf = true) :
    RequirementsInfo.dumpsLines ⟨none, insFold (sortRefs reqs) false []⟩ =
      reqLinesOf reqs := by
  have hwfs : ∀ r ∈ sortRefs reqs, r.wf = true :=
    fun r hr => hwf r (mem_sortRefs.mp hr)
  rw [dumpsLines_insFold (sortRefs reqs) hwfs, reqLinesOf, reqLinesOf]
  refine congrArg _ (sortRefs_eq_of_perm ?_)
  refine (List.perm_ext_iff_of_nodup (insFold_keys_nodup _ _ _ (by simp))
    (insFold_keys_nodup _ _ _ (by simp))).mpr ?_
  intro k
  rw [insFold_keys_mem_nil, insFold_keys_mem_nil, mem_sortRefs]

/-- The record lines of well-formed direct requirements are clean body
lines. -/
theorem reqLinesOf_lineOk (reqs : List PackageReference)
    (hwf : ∀ r ∈ reqs, r.wf = true) : ∀ l ∈ reqLinesOf reqs, lineOk l = true := by
  intro l hl
  rw [reqLinesOf] at hl
  rcases List.mem_map.mp hl with ⟨k, hk, rfl⟩
  have hkw : k.wf = true :=
    hwf k ((insFold_keys_mem_nil reqs k).mp (mem_sortRefs.mp hk))
  exact lineOk_recordLine (wf_name_field hkw) (wf_version_field hkw)

/-- Loading the canonical dump layout: settings and options are taken from
their sections verbatim, the requirement set is rebuilt from the (sorted)
full requirement list with no relevance filter, the scope is empty, and
neither `_non_devs_requirements` nor the cache is assigned. -/
theorem loads_pieces (b1 b2 b3 b4 b6 : List String) (reqs : List PackageReference)
    (h1 : ∀ l ∈ b1, lineOk l = true) (h2 : ∀ l ∈ b2, lineOk l = true)
    (h3 : ∀ l ∈ b3, lineOk l = true) (h4 : ∀ l ∈ b4, lineOk l = true)
    (h6 : ∀ l ∈ b6, lineOk l = true)
    (hwf : ∀ r ∈ reqs, r.wf = true) :
    ConanInfo.loads (pyJoin "\n"
      ["[settings]", pyJoin "\n" (b1.map (fun l => "    " ++ l)),
       "\n[requires]", pyJoin "\n" (b2.map (fun l => "    " ++ l)),
       "\n[options]", pyJoin "\n" (b3.map (fun l => "    " ++ l)),
       "\n[full_settings]", pyJoin "\n" (b4.map (fun l => "    " ++ l)),
       "\n[full_requires]", pyJoin "\n"
         (((sortRefs reqs).map PackageReference.str).map (fun l => "    " ++ l)),
       "\n[full_options]", pyJoin "\n" (b6.map (fun l => "    " ++ l)),
       "\n[scope]"]) =
      some ⟨⟨b1⟩, ⟨b4⟩, ⟨b3, []⟩, ⟨b6, []⟩, ⟨none, insFold (sortRefs reqs) false []⟩,
        sortRefs reqs, some none, none, none⟩ := by
  have h5 : ∀ l ∈ (sortRefs reqs).map PackageReference.str, lineOk l = true := by
    intro l hl
    rcases List.mem_map.mp hl with ⟨r, hr, rfl⟩
    exact lineOk_str (hwf r (mem_sortRefs.mp hr))
  have hrun := run_pieces b1 b2 b3 b4 ((sortRefs reqs).map PackageReference.str) b6
    h1 h2 h3 h4 h5 h6
  have hok : ∀ ls : List String, (∀ l ∈ ls, lineOk l = true) →
      ∀ l ∈ ls, l.data ≠ [] ∧ ('\n') ∉ l.data := by
    intro ls hls l hl
    exact ⟨(lineOk_facts (hls l hl)).1, (lineOk_facts (hls l hl)).2.2.2.2⟩
  have hfr : RequirementsList.loads
      (pyJoin "\n" ((sortRefs reqs).map PackageReference.str)) =
      some (sortRefs reqs) := by
    rw [RequirementsList.loads, pySplitlines_pyJoin _ (hok _ h5),
      RequirementsList.deserialize,
      mapM_loads_str _ (fun r hr => hwf r (mem_sortRefs.mp hr))]
  simp only [ConanInfo.loads, Option.bind_eq_bind]
  rw [hrun, Option.some_bind]
  rw [show sectionText (sectionsOf b1 b2 b3 b4
      ((sortRefs reqs).map PackageReference.str) b6) "settings" =
      some (pyJoin "\n" b1) from rfl, Option.some_bind]
  rw [show sectionText (sectionsOf b1 b2 b3 b4
      ((sortRefs reqs).map PackageReference.str) b6) "full_settings" =
      some (pyJoin "\n" b4) from rfl, Option.some_bind]
  rw [show sectionText (sectionsOf b1 b2 b3 b4
      ((sortRefs reqs).map PackageReference.str) b6) "options" =
      some (pyJoin "\n" b3) from rfl, Option.some_bind]
  rw [show sectionText (sectionsOf b1 b2 b3 b4
      ((sortRefs reqs).map PackageReference.str) b6) "full_options" =
      some (pyJoin "\n" b6) from rfl, Option.some_bind]
  rw [show sectionText (sectionsOf b1 b2 b3 b4
      ((sortRefs reqs).map PackageReference.str) b6) "full_requires" =
      some (pyJoin "\n" ((sortRefs reqs).map PackageReference.str)) from rfl,
    Option.some_bind]
  rw [show sectionText (sectionsOf b1 b2 b3 b4
      ((sortRefs reqs).map PackageReference.str) b6) "scope" =
      some (pyJoin "\n" ([] : List String)) from rfl, Option.some_bind]
  rw [hfr, Option.some_bind]
  rw [RequirementsInfo.init_wf _ none (fun r hr => hwf r (mem_sortRefs.mp hr)),
    Option.some_bind]
  rw [show Values.loads (pyJoin "\n" b1) = ⟨b1⟩ from by
      rw [Values.loads, pySplitlines_pyJoin _ (hok _ h1)],
    show Values.loads (pyJoin "\n" b4) = ⟨b4⟩ from by
      rw [Values.loads, pySplitlines_pyJoin _ (hok _ h4)],
    show OptionsValues.loads (pyJoin "\n" b3) = ⟨b3, []⟩ from by
      rw [OptionsValues.loads, pySplitlines_pyJoin _ (hok _ h3)],
    show OptionsValues.loads (pyJoin "\n" b6) = ⟨b6, []⟩ from by
      rw [OptionsValues.loads, pySplitlines_pyJoin _ (hok _ h6)]]
  rfl

/-- The canonical dump of any build identity with an empty assigned scope,
written out by section bodies. -/
theorem dumps_of_fields (c : ConanInfo) (sL fL oL foL rL : List String)
    (hsc : c.scope = some none)
    (hse : c.settings = ⟨sL⟩)
    (hfs : c.full_settings = ⟨fL⟩)
    (hop : c.options.allLines = oL)
    (hfo : c.full_options.allLines = foL)
    (hrq : c.requires.dumpsLines = rL)
    (hsl : ∀ l ∈ sL, lineOk l = true) (hfl : ∀ l ∈ fL, lineOk l = true)
    (hol : ∀ l ∈ oL, lineOk l = true) (hfol : ∀ l ∈ foL, lineOk l = true)
    (hrl : ∀ l ∈ rL, lineOk l = true)
    (hfrw : ∀ r ∈ c.full_requires, r.wf = true) :
    c.dumps = some (pyJoin "\n"
      ["[settings]", pyJoin "\n" (sL.map (fun l => "    " ++ l)),
       "\n[requires]", pyJoin "\n" (rL.map (fun l => "    " ++ l)),
       "\n[options]", pyJoin "\n" (oL.map (fun l => "    " ++ l)),
       "\n[full_settings]", pyJoin "\n" (fL.map (fun l => "    " ++ l)),
       "\n[full_requires]", pyJoin "\n"
         (((sortRefs c.full_requires).map PackageReference.str).map
           (fun l => "    " ++ l)),
       "\n[full_options]", pyJoin "\n" (foL.map (fun l => "    " ++ l)),
       "\n[scope]"]) := by
  obtain ⟨cs, cf, co, cfo, cr, cfr, csc, cnd, cpc⟩ := c
  simp only at hse hfs hop hfo hrq hfrw hsc
  subst hsc hse hfs hop hfo hrq
  have hd : ConanInfo.dumps ⟨⟨sL⟩, ⟨fL⟩, co, cfo, cr, cfr, some none, cnd, cpc⟩ =
      some (pyJoin "\n" (["[settings]", indentText (Values.dumps ⟨sL⟩),
        "\n[requires]", indentText cr.dumps,
        "\n[options]", indentText co.dumps,
        "\n[full_settings]", indentText (Values.dumps ⟨fL⟩),
        "\n[full_requires]", indentText (RequirementsList.dumps cfr),
        "\n[full_options]", indentText cfo.dumps,
        "\n[scope]"] ++ [])) := rfl
  rw [hd, List.append_nil]
  rw [show Values.dumps ⟨sL⟩ = pyJoin "\n" sL from rfl, indentText_of sL hsl,
    RequirementsInfo.dumps_eq, indentText_of cr.dumpsLines hrl,
    show OptionsValues.dumps co = pyJoin "\n" co.allLines from rfl,
    indentText_of co.allLines hol,
    show Values.dumps ⟨fL⟩ = pyJoin "\n" fL from rfl, indentText_of fL hfl,
    show RequirementsList.dumps cfr =
      pyJoin "\n" ((sortRefs cfr).map PackageReference.str) from rfl,
    indentText_of ((sortRefs cfr).map PackageReference.str) (fun l hl => by
      rcases List.mem_map.mp hl with ⟨r, hr, rfl⟩
      exact lineOk_str (hfrw r (mem_sortRefs.mp hr))),
    show OptionsValues.dumps cfo = pyJoin "\n" cfo.allLines from rfl,
    indentText_of cfo.allLines hfol]

/-- Claim C2 (counterexample): the canonical-dump round trip is not the
identity for every created build identity — with an indirect requirement
(and a relevance filter on the options), parse() rebuilds the requirement
set from the full requirement list as direct records, so the second
canonical_dump() differs from the first. -/
theorem C2_counterexample :
    ((ConanInfo.create ⟨["os=Linux"]⟩ ⟨["shared=False"], ["B:x=1"]⟩ [refA10] [refB20]
        none).bind
      (fun c => c.dumps.bind (fun t =>
        (ConanInfo.loads t).bind (fun c' =>
          c'.dumps.map (fun t' => decide (t' = t)))))) = some false := by decide

/-- Claim C2 (amended): for a build identity created with NO indirect
requirements and NO relevance filter, from clean settings/options lines and
well-formed references, canonical_dump() then parse() then canonical_dump()
again yields the identical string. -/
theorem C2_amended (sLines oEntries oInd : List String)
    (requires : List PackageReference)
    (hs : ∀ l ∈ sLines, lineOk l = true)
    (ho : ∀ l ∈ oEntries, lineOk l = true)
    (hoi : ∀ l ∈ oInd, lineOk l = true)
    (hwf : ∀ r ∈ requires, r.wf = true) :
    ∃ c t c',
      ConanInfo.create ⟨sLines⟩ ⟨oEntries, oInd⟩ requires [] none = some c ∧
        c.dumps = some t ∧ ConanInfo.loads t = some c' ∧ c'.dumps = some t := by
  have hfo : ∀ l ∈ oEntries ++ oInd, lineOk l = true := by
    intro l hl
    rcases List.mem_append.mp hl with hl | hl
    · exact ho l hl
    · exact hoi l hl
  have hrl := reqLinesOf_lineOk requires hwf
  have hwfs : ∀ r ∈ sortRefs requires, r.wf = true :=
    fun r hr => hwf r (mem_sortRefs.mp hr)
  refine ⟨⟨⟨sLines⟩, ⟨sLines⟩, ⟨oEntries, []⟩, ⟨oEntries, oInd⟩,
    ⟨none, insFold requires false []⟩, requires, some none, some none, none⟩,
    pyJoin "\n"
      ["[settings]", pyJoin "\n" (sLines.map (fun l => "    " ++ l)),
       "\n[requires]", pyJoin "\n" ((reqLinesOf requires).map (fun l => "    " ++ l)),
       "\n[options]", pyJoin "\n" (oEntries.map (fun l => "    " ++ l)),
       "\n[full_settings]", pyJoin "\n" (sLines.map (fun l => "    " ++ l)),
       "\n[full_requires]", pyJoin "\n"
         (((sortRefs requires).map PackageReference.str).map (fun l => "    " ++ l)),
       "\n[full_options]", pyJoin "\n" ((oEntries ++ oInd).map (fun l => "    " ++ l)),
       "\n[scope]"],
    ⟨⟨sLines⟩, ⟨sLines⟩, ⟨oEntries, []⟩, ⟨oEntries ++ oInd, []⟩,
      ⟨none, insFold (sortRefs requires) false []⟩, sortRefs requires, some none,
      none, none⟩, ?_, ?_, ?_, ?_⟩
  · rw [ConanInfo.create_wf ⟨sLines⟩ ⟨oEntries, oInd⟩ requires [] none hwf
      (fun r hr => absurd hr (List.not_mem_nil r))]
    rw [List.append_nil]
    rfl
  · exact dumps_of_fields _ sLines sLines oEntries (oEntries ++ oInd)
      (reqLinesOf requires) rfl rfl rfl (by simp [OptionsValues.allLines]) rfl
      (dumpsLines_insFold requires hwf) hs hs ho hfo hrl hwf
  · exact loads_pieces sLines (reqLinesOf requires) oEntries sLines (oEntries ++ oInd)
      requires hs hrl ho hs hfo hwf
  · have hres := dumps_of_fields
      ⟨⟨sLines⟩, ⟨sLines⟩, ⟨oEntries, []⟩, ⟨oEntries ++ oInd, []⟩,
        ⟨none, insFold (sortRefs requires) false []⟩, sortRefs requires, some none,
        none, none⟩ sLines sLines oEntries (oEntries ++ oInd) (reqLinesOf requires)
      rfl rfl rfl (by simp [OptionsValues.allLines]) (by simp [OptionsValues.allLines])
      (dumpsLines_insFold_sorted requires hwf) hs hs ho hfo hrl hwfs
    rw [show (⟨⟨sLines⟩, ⟨sLines⟩, ⟨oEntries, []⟩, ⟨oEntries ++ oInd, []⟩,
      ⟨none, insFold (sortRefs requires) false []⟩, sortRefs requires, some none,
      none, none⟩ : ConanInfo).full_requires = sortRefs requires from rfl,
      sortRefs_idem] at hres
    exact hres

/-- Witness for C2 (amended): a concrete two-requirement build identity whose
canonical dump survives the parse/dump round trip byte for byte. -/
theorem C2_witness :
    ∃ c t c',
      ConanInfo.create ⟨["os=Linux"]⟩ ⟨["shared=False"], ["B:x=1"]⟩ [refA10, refB20]
          [] none = some c ∧
        c.dumps = some t ∧ ConanInfo.loads t = some c' ∧ c'.dumps = some t :=
  C2_amended ["os=Linux"] ["shared=False"] ["B:x=1"] [refA10, refB20]
    (by decide) (by decide) (by decide) (by decide)
